import Mathlib

/-!
# Verification of the findpage catalog-discovery engine

Shallow embedding of `src/find_page.py` (URL utilities, platform detection,
identifier extraction, the existence oracle `looks_not_found`, the scan-pass
state machine `scan_pass`, the domain-keyed discovery store, and the
`scan_for_slack` orchestrator), together with theorems settling the frozen
claims about the specification.

Strings are embedded as `List Char` (`Chars`).  Python library calls
(`urllib.parse.urlparse`, `urlunparse`, `parse_qs`, `str.strip`, `str.lower`,
`re` searches for the concrete patterns appearing in the source) are embedded
by direct implementations of the algorithms they perform on the inputs the
program feeds them.  Case mapping is ASCII (the program's inputs are ASCII
URLs and ASCII/Korean page text, on which Python's `str.lower` agrees), and
percent-decoding in `parse_qs` is omitted (no caller produces percent
escapes).  Network responses are modelled by an explicit `http` function from
the requested URL to the transport outcome, and the politeness `time.sleep`
is a no-op.
-/

set_option maxRecDepth 10000

namespace FindPage

abbrev Chars := List Char

/-- Python `str.strip()`: drop whitespace from both ends. -/
def pyStrip (s : Chars) : Chars :=
  ((s.dropWhile Char.isWhitespace).reverse.dropWhile Char.isWhitespace).reverse

/-- ASCII lowercase of every character (Python `str.lower` on our inputs). -/
def lowerAll (s : Chars) : Chars := s.map Char.toLower

/-- Python `str.rstrip("/")`. -/
def rstripSlash (s : Chars) : Chars :=
  (s.reverse.dropWhile (fun c => c = '/')).reverse

/-- Split a list at the first occurrence of `c`: `some (before, after)`,
`none` when `c` does not occur (Python `str.find` / `str.split(c, 1)`). -/
def splitFirst (c : Char) : Chars → Option (Chars × Chars)
  | [] => none
  | a :: rest =>
    if a = c then some ([], rest)
    else
      match splitFirst c rest with
      | some (pre, post) => some (a :: pre, post)
      | none => none

theorem splitFirst_post_length {c : Char} :
    ∀ {s pre post : Chars}, splitFirst c s = some (pre, post) → post.length < s.length := by
  intro s
  induction s with
  | nil => intro pre post h; simp [splitFirst] at h
  | cons a rest ih =>
    intro pre post h
    by_cases hac : a = c
    · simp [splitFirst, hac] at h
      simp [← h.2]
    · cases hrec : splitFirst c rest with
      | none => simp [splitFirst, hac, hrec] at h
      | some pq =>
        obtain ⟨p, q⟩ := pq
        simp [splitFirst, hac, hrec] at h
        have := ih hrec
        simp [← h.2]
        omega

/-- Python `str.split(sep)` for a one-character separator, with the
current field accumulated in reverse. -/
def splitOnGo (c : Char) : Chars → Chars → List Chars
  | acc, [] => [acc.reverse]
  | acc, a :: rest =>
    if a = c then acc.reverse :: splitOnGo c [] rest
    else splitOnGo c (a :: acc) rest

/-- Python `str.split(sep)` for a one-character separator. -/
def splitOn (c : Char) (s : Chars) : List Chars := splitOnGo c [] s

/-- Substring containment (Python `needle in hay`). -/
def containsSub (hay needle : Chars) : Bool :=
  match hay with
  | [] => needle.isPrefixOf ([] : Chars)
  | _ :: rest => needle.isPrefixOf hay || containsSub rest needle

/-- `10*n + d` accumulation over a digit string (Python `int` on digits). -/
def natOfDigits (ds : Chars) : Nat :=
  ds.foldl (fun n c => 10 * n + (c.toNat - 48)) 0

/-- Decimal digits of `n`, most significant first, prepended to `acc`
(`fuel ≥ n` makes the fuel irrelevant; structural so that proofs can
evaluate it). -/
def natDigitsGo : Nat → Nat → Chars → Chars
  | 0, _, acc => acc
  | fuel + 1, n, acc =>
    if n = 0 then acc
    else natDigitsGo fuel (n / 10) (Char.ofNat (48 + n % 10) :: acc)

/-- Decimal representation of a natural number (Python `str(n)` / `format`). -/
def natRepr (n : Nat) : Chars :=
  if n = 0 then ['0'] else natDigitsGo n n []

/-- Replace every (non-overlapping, left-to-right) occurrence of `old` by
`new` (Python `str.replace`, and the effect of `str.format` substituting the
sole placeholder of the scan templates); `skip` counts characters of a
just-matched occurrence still to be consumed. -/
def replaceGo (old new : Chars) : Nat → Chars → Chars
  | _, [] => []
  | skip + 1, _ :: rest => replaceGo old new skip rest
  | 0, c :: rest =>
    if old.isPrefixOf (c :: rest) then
      new ++ replaceGo old new (old.length - 1) rest
    else
      c :: replaceGo old new 0 rest

/-- Python `str.replace(old, new)` for nonempty `old`. -/
def replaceStr (old new s : Chars) : Chars := replaceGo old new 0 s

/-- `template_url.format(id=product_id)`: substitute the decimal id for the
placeholder (the source templates contain exactly one `\x7bid\x7d`). -/
def format_id (template : Chars) (id : Nat) : Chars :=
  replaceStr ("\x7bid\x7d".data) (natRepr id) template

/- ----------------------------------------------------------------
   urllib.parse: urlparse / urlunparse / parse_qs, restricted to the
   empty-params components this program uses.
   ---------------------------------------------------------------- -/

/-- Result of `urllib.parse.urlparse` (params unused by the program). -/
structure UrlParts where
  scheme : Chars
  netloc : Chars
  path : Chars
  query : Chars
  fragment : Chars
deriving DecidableEq, Repr

/-- Characters allowed after the first in a URL scheme. -/
def schemeChar (c : Char) : Bool :=
  c.isAlphanum || c = '+' || c = '-' || c = '.'

/-- `netloc` runs to the first `/`, `?` or `#`. -/
def notNetlocDelim (c : Char) : Bool :=
  !(c = '/' || c = '?' || c = '#')

/-- `urllib.parse.urlparse` (CPython `urlsplit`): optional scheme before the
first `:` (lowercased), `//`-introduced netloc up to `/?#`, then the fragment
split at the first `#` and the query split at the first `?`. -/
def urlparse (u : Chars) : UrlParts :=
  let schemeSplit :=
    match splitFirst ':' u with
    | some (pre, post) =>
      if pre ≠ [] ∧ (pre.headD ' ').isAlpha ∧ pre.tail.all schemeChar then
        (lowerAll pre, post)
      else ([], u)
    | none => ([], u)
  let scheme := schemeSplit.1
  let rest := schemeSplit.2
  let netlocSplit :=
    match rest with
    | '/' :: '/' :: r => (r.takeWhile notNetlocDelim, r.dropWhile notNetlocDelim)
    | _ => ([], rest)
  let netloc := netlocSplit.1
  let rest2 := netlocSplit.2
  let fragSplit :=
    match splitFirst '#' rest2 with
    | some (pre, post) => (pre, post)
    | none => (rest2, [])
  let querySplit :=
    match splitFirst '?' fragSplit.1 with
    | some (pre, post) => (pre, post)
    | none => (fragSplit.1, [])
  ⟨scheme, netloc, querySplit.1, querySplit.2, fragSplit.2⟩

/-- `urllib.parse.urlunparse` for empty params, query and fragment (the only
shape the program builds): CPython `urlunsplit`. -/
def urlunparse3 (scheme netloc path : Chars) : Chars :=
  let url :=
    if netloc ≠ [] ∨ path.take 2 = "//".data then
      "//".data ++ netloc ++
        (if path ≠ [] ∧ path.take 1 ≠ "/".data then '/' :: path else path)
    else path
  if scheme ≠ [] then scheme ++ ':' :: url else url

/-- One `key=value` field of `parse_qs` (defaults: blank values dropped,
fields without `=` dropped; `+` decodes to space; percent escapes do not
occur in this program's inputs). -/
def parseQsField (f : Chars) : Option (Chars × Chars) :=
  if f = [] then none
  else
    match splitFirst '=' f with
    | none => none
    | some (n, v) =>
      if v = [] then none
      else some (n.map (fun c => if c = '+' then ' ' else c),
                 v.map (fun c => if c = '+' then ' ' else c))

/-- `urllib.parse.parse_qs(query)[key][0]`: the first value bound to `key`,
`none` when `key` is absent (so `key in qs` is false). -/
def parse_qs_first (query key : Chars) : Option Chars :=
  ((splitOn '&' query).filterMap parseQsField).lookup key

/- ----------------------------------------------------------------
   URL utils of find_page.py
   ---------------------------------------------------------------- -/

/-- The regex `^https?://` with `re.IGNORECASE` (used by `ensure_scheme`). -/
def startsWithHttpScheme : Chars → Bool
  | c1 :: c2 :: c3 :: c4 :: rest =>
    c1.toLower = 'h' && c2.toLower = 't' && c3.toLower = 't' && c4.toLower = 'p' &&
      (match rest with
       | ':' :: '/' :: '/' :: _ => true
       | c5 :: ':' :: '/' :: '/' :: _ => c5.toLower = 's'
       | _ => false)
  | _ => false

/-- `ensure_scheme`: strip, then prefix `https://` unless the URL already
starts with `http://` or `https://` (case-insensitively). -/
def ensure_scheme (url : Chars) : Chars :=
  let u := pyStrip url
  if startsWithHttpScheme u then u else "https://".data ++ u

/-- `normalize_home`: scheme and netloc only. -/
def normalize_home (url : Chars) : Chars :=
  let p := urlparse (ensure_scheme url)
  urlunparse3 p.scheme p.netloc []

/-- `get_domain_from_url`: netloc with every occurrence of `www.` removed
(Python `str.replace("www.", "")`). -/
def get_domain_from_url (url : Chars) : Chars :=
  let p := urlparse (ensure_scheme url)
  replaceStr ("www.".data) [] p.netloc

/-- `strip_query_fragment`: drop query and fragment, keep the path. -/
def strip_query_fragment (url : Chars) : Chars :=
  let p := urlparse (ensure_scheme url)
  urlunparse3 p.scheme p.netloc p.path

/-- The fixed home/index path set of `is_homepage`. -/
def HOME_LIKE_PATHS : List Chars :=
  ["/index.html".data, "/index.htm".data, "/index.php".data, "/index.asp".data,
   "/index.aspx".data, "/default.asp".data, "/default.aspx".data, "/main".data,
   "/main/".data, "/main/index.html".data, "/main/index.htm".data,
   "/main/index.php".data]

/-- `is_homepage`: the lowercased, stripped path is empty, `/`, or one of the
fixed home/index paths. -/
def is_homepage (url : Chars) : Bool :=
  let p := urlparse (ensure_scheme url)
  let path := pyStrip (lowerAll p.path)
  if path = [] ∨ path = "/".data then true
  else if path ∈ HOME_LIKE_PATHS then true
  else false

/-- `normalize_for_compare`: lowercase scheme and host, strip trailing
slashes from the path, drop query and fragment. -/
def normalize_for_compare (url : Chars) : Chars :=
  let p := urlparse (ensure_scheme url)
  let path := rstripSlash p.path
  lowerAll p.scheme ++ "://".data ++ lowerAll p.netloc ++ path

/- ----------------------------------------------------------------
   Regex searches appearing in find_page.py, embedded one by one.
   ---------------------------------------------------------------- -/

/-- `re.search(r"/surl/p/(\d+)", path)`: the captured number at the first
matching position (digits are taken greedily; a shorter digit run would be
followed by a digit, so the maximal run is the only candidate). -/
def searchSurlPId : Chars → Option Nat
  | [] => none
  | c :: rest =>
    if ("/surl/p/".data).isPrefixOf (c :: rest) then
      let after := (c :: rest).drop 8
      let ds := after.takeWhile Char.isDigit
      if ds ≠ [] then some (natOfDigits ds) else searchSurlPId rest
    else searchSurlPId rest

/-- `re.search(r"/surl/p/\d+", path)` as a Boolean. -/
def hasSurlPNum (path : Chars) : Bool :=
  (searchSurlPId path).isSome

/-- A match of `/(\d+)/category/` starting exactly here. -/
def slashNumCategoryAt (s : Chars) : Option Nat :=
  match s with
  | '/' :: rest =>
    let ds := rest.takeWhile Char.isDigit
    if ds ≠ [] ∧ ("/category/".data).isPrefixOf (rest.dropWhile Char.isDigit) then
      some (natOfDigits ds)
    else none
  | _ => none

/-- The match of `/(\d+)/category/` at the latest possible position (the
greedy `.+` of `r"/product/.+/(\d+)/category/"` captures the last one). -/
def lastSlashNumCategory : Chars → Option Nat
  | [] => none
  | c :: rest =>
    match lastSlashNumCategory rest with
    | some n => some n
    | none => slashNumCategoryAt (c :: rest)

/-- `re.search(r"/product/.+/(\d+)/category/", path)`: first position where
`/product/` matches with at least one character before a
`/(\d+)/category/` match; the group is taken greedily (last such match). -/
def searchProductCategoryId : Chars → Option Nat
  | [] => none
  | c :: rest =>
    if ("/product/".data).isPrefixOf (c :: rest) then
      match (c :: rest).drop 9 with
      | [] => searchProductCategoryId rest
      | _ :: tail2 =>
        match lastSlashNumCategory tail2 with
        | some n => some n
        | none => searchProductCategoryId rest
    else searchProductCategoryId rest

/-- `re.search(r"/product/.+/\d+/category/", path)` as a Boolean. -/
def hasProductCategoryNum (path : Chars) : Bool :=
  (searchProductCategoryId path).isSome

/-- Case-insensitive literal match at the head (`lit` given lowercase). -/
def ciLitAt : Chars → Chars → Bool
  | [], _ => true
  | _ :: _, [] => false
  | a :: as, b :: bs => a = b.toLower && ciLitAt as bs

/-- A match of `name=\d+(?:&|$)` starting exactly here (`name` matched
case-insensitively, as under `re.IGNORECASE`). -/
def paramNumAt (pname : Chars) (s : Chars) : Bool :=
  ciLitAt (pname ++ "=".data) s &&
    (let r := s.drop (pname.length + 1)
     let ds := r.takeWhile Char.isDigit
     ds ≠ [] ∧ (r.dropWhile Char.isDigit = [] ∨
                (r.dropWhile Char.isDigit).headD ' ' = '&'))

/-- `re.search(r"(?:^|&)name=\d+(?:&|$)", query, re.IGNORECASE)`: a match at
the start or right after an `&`. -/
def hasParamNum (pname query : Chars) : Bool :=
  paramNumAt pname query || afterAmp query
where
  afterAmp : Chars → Bool
    | [] => false
    | c :: rest => (c = '&' && paramNumAt pname rest) || afterAmp rest

/-- Python `str.isdigit` on the strings this program feeds it. -/
def pyIsDigit (s : Chars) : Bool :=
  s ≠ [] && s.all Char.isDigit

/-- `str.endswith` (Python) on an already-lowercased subject. -/
def endsWith (s suffixChars : Chars) : Bool :=
  suffixChars.isSuffixOf s

/- ----------------------------------------------------------------
   Product ID extraction and platform detection
   ---------------------------------------------------------------- -/

/-- `extract_product_id_from_input_url`: Cafe24 `/surl/p/{id}`, Cafe24
`/product/.../{id}/category/...`, Cafe24 `detail.html?product_no={id}`, or
Imweb `/Product/?idx={id}`; `none` when no shape matches. -/
def extract_product_id_from_input_url (product_url : Chars) : Option Nat :=
  let raw := ensure_scheme product_url
  let clean := strip_query_fragment raw
  let path := (urlparse clean).path
  let query := (urlparse raw).query
  let tryDetail : Option Nat :=
    if endsWith (lowerAll (rstripSlash path)) ("/product/detail.html".data) then
      match parse_qs_first query ("product_no".data) with
      | some v => if pyIsDigit v then some (natOfDigits v) else none
      | none => none
    else none
  let tryImweb : Option Nat :=
    if endsWith (lowerAll (rstripSlash path)) ("/product".data) then
      match parse_qs_first query ("idx".data) with
      | some v => if pyIsDigit v then some (natOfDigits v) else none
      | none => none
    else none
  match searchSurlPId path with
  | some n => some n
  | none =>
    match searchProductCategoryId path with
    | some n => some n
    | none =>
      match tryDetail with
      | some n => some n
      | none => tryImweb

/-- `detect_platform_from_product_url`: `(platform, canonical scan
template)`; every Cafe24 shape maps to `{base}/surl/p/{id}`, the Imweb shape
to `{base}/Product/?idx={id}`; `none` (Python `(None, None)`) otherwise. -/
def detect_platform_from_product_url (product_url : Chars) :
    Option (Chars × Chars) :=
  let raw := ensure_scheme product_url
  let clean := strip_query_fragment raw
  let path := (urlparse clean).path
  let query := (urlparse raw).query
  let base := normalize_home clean
  if containsSub path ("/surl/p/".data) ∧ hasSurlPNum path then
    some ("cafe24".data, base ++ "/surl/p/\x7bid\x7d".data)
  else if ("/product/".data).isPrefixOf path ∧ hasProductCategoryNum path then
    some ("cafe24".data, base ++ "/surl/p/\x7bid\x7d".data)
  else if endsWith (lowerAll (rstripSlash path)) ("/product/detail.html".data) ∧
          hasParamNum ("product_no".data) query then
    some ("cafe24".data, base ++ "/surl/p/\x7bid\x7d".data)
  else if endsWith (lowerAll (rstripSlash path)) ("/product".data) ∧
          hasParamNum ("idx".data) query then
    some ("imweb".data, base ++ "/Product/?idx=\x7bid\x7d".data)
  else none

/- ----------------------------------------------------------------
   Product name parsing
   ---------------------------------------------------------------- -/

/-- `re.sub(r"\s+", " ", text)`: collapse every whitespace run to one
space (the space is emitted at the end of each run). -/
def collapseWs : Chars → Chars
  | [] => []
  | [c] => if c.isWhitespace then [' '] else [c]
  | c :: c2 :: rest =>
    if c.isWhitespace then
      if c2.isWhitespace then collapseWs (c2 :: rest)
      else ' ' :: collapseWs (c2 :: rest)
    else c :: collapseWs (c2 :: rest)

/-- `clean_text`. -/
def clean_text (text : Chars) : Chars := pyStrip (collapseWs text)

/-- The characters before the first case-insensitive `</title>`, if any. -/
def beforeCloseTitle : Chars → Option Chars
  | [] => none
  | c :: rest =>
    if ciLitAt ("</title>".data) (c :: rest) then some []
    else
      match beforeCloseTitle rest with
      | some inner => some (c :: inner)
      | none => none

/-- `re.search(r"<title[^>]*>(.*?)</title>", html, re.IGNORECASE | re.DOTALL)`:
at each case-insensitive `<title`, skip non-`>` characters, require `>`, then
take the lazily-shortest body up to `</title>`; on failure resume at the next
position. -/
def searchTitleTag : Chars → Option Chars
  | [] => none
  | c :: rest =>
    if ciLitAt ("<title".data) (c :: rest) then
      let after := (c :: rest).drop 6
      match after.dropWhile (fun ch => !(ch = '>')) with
      | '>' :: body =>
        match beforeCloseTitle body with
        | some inner => some inner
        | none => searchTitleTag rest
      | _ => searchTitleTag rest
    else searchTitleTag rest

/-- `extract_product_name`: only the `<title>` pattern is live in the source
(the Open-Graph and Twitter-card patterns are commented out); the fixed
failure marker is returned if it does not match. -/
def extract_product_name (html : Chars) : Chars :=
  match searchTitleTag html with
  | some inner => clean_text inner
  | none => "(제품명 추출 실패)".data

/-- The character class `[가-힣a-zA-Z0-9]` of `extract_influencer_names`. -/
def influencerWordChar (c : Char) : Bool :=
  ('가' ≤ c ∧ c ≤ '힣') || c.isAlphanum

/-- `re.findall(r"[가-힣a-zA-Z0-9]+", name)`: maximal runs of word
characters, with the current run accumulated in reverse. -/
def findWordsGo : Chars → Chars → List Chars
  | acc, [] => if acc = [] then [] else [acc.reverse]
  | acc, c :: rest =>
    if influencerWordChar c then findWordsGo (c :: acc) rest
    else if acc = [] then findWordsGo [] rest
    else acc.reverse :: findWordsGo [] rest

/-- `re.findall(r"[가-힣a-zA-Z0-9]+", name)`. -/
def findWords (s : Chars) : List Chars := findWordsGo [] s

/-- Code-point lexicographic comparison (Python `<` on strings). -/
def lexLt : Chars → Chars → Bool
  | [], [] => false
  | [], _ :: _ => true
  | _ :: _, [] => false
  | a :: as, b :: bs => a < b || (a = b && lexLt as bs)

/-- Insert into a sorted list of distinct words (modelling Python
`sorted(set)`: membership-distinct, lexicographically ordered). -/
def insertSortedDistinct (w : Chars) : List Chars → List Chars
  | [] => [w]
  | x :: xs =>
    if w = x then x :: xs
    else if lexLt w x then w :: x :: xs
    else x :: insertSortedDistinct w xs

/-- `extract_influencer_names`: the sorted set of words (from all names)
containing one of the characters 네, 맘, 약. -/
def extract_influencer_names (product_names : List Chars) : List Chars :=
  let words := (product_names.map findWords).flatten
  let hits := words.filter (fun w => w.contains '네' || w.contains '맘' || w.contains '약')
  hits.foldl (fun acc w => insertSortedDistinct w acc) []

/- ----------------------------------------------------------------
   Existence oracle: looks_not_found
   ---------------------------------------------------------------- -/

/-- `NOT_FOUND_KEYWORDS` of find_page.py. -/
def NOT_FOUND_KEYWORDS : List Chars :=
  ["페이지를 찾을 수".data, "찾을 수 없습니다".data, "존재하지".data,
   "삭제된".data, "판매중지".data, "상품이 없습니다".data,
   "없는 상품".data, "not found".data, "404".data]

def STOP_AFTER_CONSECUTIVE_MISSES : Nat := 100

def STOP_AFTER_CONSECUTIVE_HITS : Nat := 200

/-- `looks_not_found(status_code, requested_url, final_url, html)`: non-200,
redirect to a home-like page, a not-found keyword in the first 20000
lowercased characters, or a stripped body shorter than 200 characters. -/
def looks_not_found (status_code : Nat) (requested_url final_url html : Chars) :
    Bool :=
  if status_code ≠ 200 then true
  else if normalize_for_compare requested_url ≠ normalize_for_compare final_url ∧
          is_homepage final_url then true
  else
    let sample := lowerAll (html.take 20000)
    if NOT_FOUND_KEYWORDS.any (fun kw => containsSub sample kw) then true
    else if (pyStrip sample).length < 200 then true
    else false

/- ----------------------------------------------------------------
   Discovery store: domain-keyed text records
   ---------------------------------------------------------------- -/

/-- The regex `r"/(\d+)(?:[/?#]|$)"` of `get_last_id_from_file`: the number
at the first `/`-digits position whose digit run is followed by `/`, `?`,
`#`, or the end of the line. -/
def searchSlashNumId : Chars → Option Nat
  | [] => none
  | c :: rest =>
    if c = '/' then
      let ds := rest.takeWhile Char.isDigit
      let r2 := rest.dropWhile Char.isDigit
      if ds ≠ [] ∧ (r2 = [] ∨ r2.headD ' ' = '/' ∨ r2.headD ' ' = '?' ∨
                    r2.headD ' ' = '#') then
        some (natOfDigits ds)
      else searchSlashNumId rest
    else searchSlashNumId rest

/-- The reversed-lines scan of `get_last_id_from_file`: the first line (from
the end) that, stripped, starts with `http` and yields a regex match. -/
def lastIdScan : List Chars → Nat
  | [] => 0
  | l :: rest =>
    let line := pyStrip l
    if ("http".data).isPrefixOf line then
      match searchSlashNumId line with
      | some n => n
      | none => lastIdScan rest
    else lastIdScan rest

/-- `get_last_id_from_file` on the file's lines (`none` = file absent or
unreadable, which the source maps to 0). -/
def get_last_id_from_file (file : Option (List Chars)) : Nat :=
  match file with
  | none => 0
  | some lines => lastIdScan lines.reverse

/-- `re.match(r"^\d+\.\s+", line)` + `re.sub` of `load_existing_products`:
strip a leading `digits.whitespace` ordinal, returning the remainder. -/
def matchOrdinal (l : Chars) : Option Chars :=
  let ds := l.takeWhile Char.isDigit
  match ds, l.dropWhile Char.isDigit with
  | _ :: _, '.' :: r2 =>
    if (r2.takeWhile Char.isWhitespace) ≠ [] then
      some (r2.dropWhile Char.isWhitespace)
    else none
  | _, _ => none

/-- The line walk of `load_existing_products`: an ordinal line followed by an
`http` line yields a record and skips both lines; otherwise advance one
line. -/
def load_existing_lines : List Chars → List (Chars × Chars)
  | [] => []
  | [_] => []
  | l :: l2 :: rest =>
    match matchOrdinal (pyStrip l) with
    | some name =>
      let url := pyStrip l2
      if ("http".data).isPrefixOf url then (name, url) :: load_existing_lines rest
      else load_existing_lines (l2 :: rest)
    | none => load_existing_lines (l2 :: rest)

/-- `load_existing_products` on the file's lines. -/
def load_existing_products (file : Option (List Chars)) : List (Chars × Chars) :=
  match file with
  | none => []
  | some lines => load_existing_lines lines

/-- The lines `save_products_to_file` writes for `products`, enumerating
ordinals from `idx`: `"{idx}. {name}"`, `"{url}"`, and a blank separator. -/
def renderProductLines (idx : Nat) : List (Chars × Chars) → List Chars
  | [] => []
  | (name, url) :: rest =>
    (natRepr idx ++ ". ".data ++ name) :: url :: [] ::
      renderProductLines (idx + 1) rest

/-- The file system visible to the program: named text files (as line
lists), plus per-filename injected write failures standing for the I/O
errors the `except` blocks of the source catch. -/
structure FS where
  files : List (Chars × List Chars)
  failWrite : Chars → Bool

/-- Read a file's lines; `none` when the file does not exist
(`os.path.exists` false). -/
def FS.read (fs : FS) (name : Chars) : Option (List Chars) :=
  fs.files.lookup name

/-- Attempt to write a file; `none` models the write raising `IOError`. -/
def FS.write (fs : FS) (name : Chars) (lines : List Chars) : Option FS :=
  if fs.failWrite name then none
  else some { fs with files := (name, lines) :: fs.files.filter (fun p => p.1 ≠ name) }

/-- The domain store filename `"{domain}.txt"`. -/
def store_filename (domain : Chars) : Chars := domain ++ ".txt".data

/-- The influencer report filename `"{domain}_influencers.txt"`. -/
def influencer_filename (domain : Chars) : Chars :=
  domain ++ "_influencers.txt".data

/-- `save_products_to_file(domain, products)`: write the rendered record
lines to `domain.txt`; an I/O error is caught inside the function (only a
console message is printed), so the caller always gets control back with no
exception; the Boolean records whether the error branch ran. -/
def save_products_to_file (fs : FS) (domain : Chars)
    (products : List (Chars × Chars)) : FS × Bool :=
  match fs.write (store_filename domain) (renderProductLines 1 products) with
  | some fs2 => (fs2, false)
  | none => (fs, true)

/-- `save_influencers_to_file(domain, influencers)`: write the influencer
report; on an I/O error the exception is caught and `""` is returned as the
filename. -/
def save_influencers_to_file (fss : FS) (domain : Chars)
    (influencers : List Chars) : FS × Chars :=
  let lines := ("# 인플루언서명 추출 결과".data) ::
    ("# 네, 맘, 약이 포함된 단어들".data) :: ("".data) :: influencers
  match fss.write (influencer_filename domain) lines with
  | some fs2 => (fs2, influencer_filename domain)
  | none => (fss, [])

/- ----------------------------------------------------------------
   Scanner (1-pass): the scan_pass state machine
   ---------------------------------------------------------------- -/

/-- The transport outcome of `session.get(url, allow_redirects=True)`:
either a `requests.RequestException` or a response with status code, final
URL after redirects (`r.url`) and body text (`r.text or ""`). -/
inductive Fetch where
  | exn
  | resp (status : Nat) (finalUrl : Chars) (text : Chars)
deriving DecidableEq

/-- The network: a deterministic map from requested URL to outcome. -/
abbrev Http := Chars → Fetch

/-- The per-pass configuration of `scan_pass` (the anomaly threshold is the
module constant `STOP_AFTER_CONSECUTIVE_HITS`; `sleep_sec` is a no-op). -/
structure ScanConfig where
  template_url : Chars
  stop_after_consecutive_misses : Nat
  allow_extra_retry_if_zero_found : Bool
  http : Http

/-- The loop state of `scan_pass`, including the accumulators the caller
passes in (Python mutates the caller's list and set in place). -/
structure PassState where
  product_id : Nat
  consecutive_misses : Nat
  consecutive_hits : Nat
  extra_retry_used : Bool
  found_products : List (Chars × Chars)
  found_urls : List Chars
deriving DecidableEq

/-- Membership in the `found_urls` set. -/
def PassState.seen (s : PassState) (url : Chars) : Bool :=
  s.found_urls.contains url

/-- The outcome of one iteration of the `while True` loop. -/
inductive StepResult where
  | cont (s : PassState)
  | anomaly (s : PassState) (requested finalUrl : Chars)
  | done (s : PassState)
deriving DecidableEq

/-- The state carried by any `StepResult`. -/
def StepResult.state : StepResult → PassState
  | .cont s => s
  | .anomaly s _ _ => s
  | .done s => s

/-- The cursor advance `product_id += 1` at the end of an iteration. -/
def advanceState (s : PassState) : PassState :=
  { s with product_id := s.product_id + 1 }

/-- The retry-extension update: reset the miss streak, consume the one-time
extension, and advance the cursor. -/
def retryState (s : PassState) : PassState :=
  { s with consecutive_misses := 0, extra_retry_used := true,
           product_id := s.product_id + 1 }

/-- The end of one loop iteration: the consecutive-miss stop check, the
one-time zero-found retry extension, and the `product_id += 1` increment
(Python skips the increment on `break`). -/
def loopEnd (cfg : ScanConfig) (s : PassState) : StepResult :=
  if s.consecutive_misses ≥ cfg.stop_after_consecutive_misses then
    if cfg.allow_extra_retry_if_zero_found ∧ s.found_products = [] ∧
        s.extra_retry_used = false then
      .cont (retryState s)
    else .done s
  else .cont (advanceState s)

/-- The miss update of one iteration: `consecutive_misses += 1`,
`consecutive_hits = 0`. -/
def missState (s : PassState) : PassState :=
  { s with consecutive_misses := s.consecutive_misses + 1, consecutive_hits := 0 }

/-- The hit update of one iteration: `consecutive_misses = 0`,
`consecutive_hits += 1`. -/
def hitState (s : PassState) : PassState :=
  { s with consecutive_misses := 0, consecutive_hits := s.consecutive_hits + 1 }

/-- Append the newly discovered record and its canonical URL. -/
def appendProduct (s : PassState) (text finalUrl : Chars) : PassState :=
  { s with
      found_products := s.found_products ++ [(extract_product_name text, finalUrl)],
      found_urls := s.found_urls ++ [finalUrl] }

/-- One iteration of `scan_pass`: fetch `template_url.format(id)`, classify
with `looks_not_found`, update the streak counters, append a new product on
a first-seen final URL, raise the anomaly error at
`STOP_AFTER_CONSECUTIVE_HITS` consecutive hits, then run the stop check. -/
def scan_step (cfg : ScanConfig) (s : PassState) : StepResult :=
  let url := format_id cfg.template_url s.product_id
  match cfg.http url with
  | .exn => loopEnd cfg (missState s)
  | .resp status finalUrl text =>
    if looks_not_found status url finalUrl text then loopEnd cfg (missState s)
    else
      let s2 :=
        if (hitState s).seen finalUrl then hitState s
        else appendProduct (hitState s) text finalUrl
      if s2.consecutive_hits ≥ STOP_AFTER_CONSECUTIVE_HITS then
        .anomaly s2 url finalUrl
      else loopEnd cfg s2

/-- The result of running the loop with bounded fuel: `fuelOut` marks a
still-running pass (the Python loop has no fuel; every theorem about a
finished or aborted pass holds for every sufficient fuel). -/
inductive RunResult where
  | fuelOut (s : PassState)
  | anomaly (s : PassState) (requested finalUrl : Chars)
  | finished (s : PassState)
deriving DecidableEq

/-- The state carried by any `RunResult`. -/
def RunResult.state : RunResult → PassState
  | .fuelOut s => s
  | .anomaly s _ _ => s
  | .finished s => s

/-- Iterate `scan_step` for at most `fuel` iterations. -/
def scan_run (cfg : ScanConfig) : Nat → PassState → RunResult
  | 0, s => .fuelOut s
  | fuel + 1, s =>
    match scan_step cfg s with
    | .cont s2 => scan_run cfg fuel s2
    | .anomaly s2 req fin => .anomaly s2 req fin
    | .done s2 => .finished s2

/-- The initial loop state of `scan_pass(template, start_id, ...)` with the
caller-supplied accumulators. -/
def initPassState (start_id : Nat) (found_products : List (Chars × Chars))
    (found_urls : List Chars) : PassState :=
  ⟨start_id, 0, 0, false, found_products, found_urls⟩

/-- `scan_pass` itself (with fuel): start from `start_id` with the given
accumulators. -/
def scan_pass (cfg : ScanConfig) (fuel : Nat) (start_id : Nat)
    (found_products : List (Chars × Chars)) (found_urls : List Chars) :
    RunResult :=
  scan_run cfg fuel (initPassState start_id found_products found_urls)

/- ----------------------------------------------------------------
   scan_for_slack: the resumable orchestrator
   ---------------------------------------------------------------- -/

/-- The observable outcome of `scan_for_slack`: the two `ValueError`s, the
propagated anomaly `RuntimeError` (carrying its diagnostic URLs), or the
normal return `(all_products, found_products, influencer_file)` together
with the resulting file system. -/
inductive SlackOutcome where
  | unsupportedPattern
  | idNotFound
  | anomalyRaised (requested finalUrl : Chars)
  | fuelOut
  | ok (all_products found_products : List (Chars × Chars))
       (influencer_file : Chars) (fs : FS)

/-- The stored lines of the input URL's domain store. -/
def slack_store (fs : FS) (product_url : Chars) : Option (List Chars) :=
  fs.read (store_filename (get_domain_from_url product_url))

/-- The previously stored records (`load_existing_products`). -/
def slack_existing (fs : FS) (product_url : Chars) : List (Chars × Chars) :=
  load_existing_products (slack_store fs product_url)

/-- The resume start id: `last_id + 1` when a positive id is stored, else
1. -/
def slack_start_id (fs : FS) (product_url : Chars) : Nat :=
  let last_id := get_last_id_from_file (slack_store fs product_url)
  if last_id > 0 then last_id + 1 else 1

/-- `scan_for_slack(product_url)`: resolve the platform and input id, load
the domain store, resume from `last_id + 1` (or 1), run the first pass with
the retry extension, conditionally run the supplementary pass anchored at
the input id (the float comparison `len < id * 0.01` on these integer
operands is exactly `100 * len < id`), then persist the merged list and the
influencer report.  `existing_urls` keeps the stored canonical URLs (only
membership is consumed, so the Python set is embedded as the URL list). -/
def scan_for_slack (fs : FS) (http : Http) (fuel1 fuel2 : Nat)
    (product_url : Chars) : SlackOutcome :=
  match detect_platform_from_product_url product_url with
  | none => .unsupportedPattern
  | some (_platform, template_url) =>
    match extract_product_id_from_input_url product_url with
    | none => .idNotFound
    | some input_product_id =>
      let domain := get_domain_from_url product_url
      let existing_products := slack_existing fs product_url
      let start_id := slack_start_id fs product_url
      let cfg1 : ScanConfig :=
        ⟨template_url, STOP_AFTER_CONSECUTIVE_MISSES, true, http⟩
      match scan_run cfg1 fuel1
          (initPassState start_id [] (existing_products.map Prod.snd)) with
      | .fuelOut _ => .fuelOut
      | .anomaly _ req fin => .anomalyRaised req fin
      | .finished s1 =>
        let second :=
          if input_product_id > start_id ∧
              100 * s1.found_products.length < input_product_id then
            scan_run ⟨template_url, STOP_AFTER_CONSECUTIVE_MISSES, false, http⟩
              fuel2 (initPassState input_product_id s1.found_products s1.found_urls)
          else .finished s1
        match second with
        | .fuelOut _ => .fuelOut
        | .anomaly _ req fin => .anomalyRaised req fin
        | .finished s2 =>
          let all_products := existing_products ++ s2.found_products
          let afterSave := save_products_to_file fs domain all_products
          let influencers := extract_influencer_names (all_products.map Prod.fst)
          let afterInf := save_influencers_to_file afterSave.1 domain influencers
          .ok all_products s2.found_products afterInf.2 afterInf.1

/- ----------------------------------------------------------------
   Helper lemmas
   ---------------------------------------------------------------- -/

theorem natDigitsGo_all_digit :
    ∀ fuel n acc, (∀ c ∈ acc, c.isDigit = true) →
      ∀ c ∈ natDigitsGo fuel n acc, c.isDigit = true := by
  intro fuel
  induction fuel with
  | zero =>
    intro n acc hacc c hc
    rw [natDigitsGo] at hc
    exact hacc c hc
  | succ fuel ih =>
    intro n acc hacc c hc
    rw [natDigitsGo] at hc
    by_cases hn : n = 0
    · rw [if_pos hn] at hc
      exact hacc c hc
    · rw [if_neg hn] at hc
      refine ih _ _ ?_ c hc
      intro d hd
      rcases List.mem_cons.mp hd with hd | hd
      · subst hd
        have hlt : n % 10 < 10 := Nat.mod_lt _ (by omega)
        interval_cases h : n % 10 <;> decide
      · exact hacc d hd

theorem natDigitsGo_ne_nil :
    ∀ fuel n acc, acc ≠ [] → natDigitsGo fuel n acc ≠ [] := by
  intro fuel
  induction fuel with
  | zero =>
    intro n acc h
    rw [natDigitsGo]
    exact h
  | succ fuel ih =>
    intro n acc h
    rw [natDigitsGo]
    by_cases hn : n = 0
    · rw [if_pos hn]
      exact h
    · rw [if_neg hn]
      exact ih _ _ (by simp)

theorem natRepr_all_digit (n : Nat) : ∀ c ∈ natRepr n, c.isDigit = true := by
  unfold natRepr
  split
  · intro c hc
    simp at hc
    subst hc
    decide
  · exact natDigitsGo_all_digit n n [] (by simp)

theorem natRepr_ne_nil (n : Nat) : natRepr n ≠ [] := by
  unfold natRepr
  split
  · simp
  · rename_i hn
    cases n with
    | zero => exact absurd rfl hn
    | succ m =>
      rw [natDigitsGo]
      rw [if_neg (by omega)]
      exact natDigitsGo_ne_nil m ((m + 1) / 10) _ (by simp)

/-- A digit head survives `pyStrip` untouched. -/
theorem pyStrip_cons_not_ws (x : Char) (xs : Chars) (hx : x.isWhitespace = false) :
    ∃ t, pyStrip (x :: xs) = x :: t := by
  unfold pyStrip
  rw [List.dropWhile_cons_of_neg (by simp [hx])]
  rw [List.reverse_cons, List.dropWhile_append]
  split
  · rw [List.dropWhile_cons_of_neg (by simp [hx])]
    exact ⟨[], by simp⟩
  · refine ⟨(xs.reverse.dropWhile Char.isWhitespace).reverse, ?_⟩
    simp

/-- `"http"` is not a prefix of a string starting with a digit. -/
theorem http_not_prefix_of_digit (x : Char) (t : Chars) (hx : x.isDigit = true) :
    ("http".data).isPrefixOf (x :: t) = false := by
  have hne : ('h' == x) = false := by
    rw [beq_eq_false_iff_ne]
    intro h
    rw [← h] at hx
    exact absurd hx (by decide)
  simp [List.isPrefixOf, hne]

/-- Option-valued twin of `lastIdScan` (distinguishes "no line matched"
from a matched id 0), used to reason about the reversed-file scan. -/
def lastIdScanO : List Chars → Option Nat
  | [] => none
  | l :: rest =>
    let line := pyStrip l
    if ("http".data).isPrefixOf line then
      match searchSlashNumId line with
      | some n => n
      | none => lastIdScanO rest
    else lastIdScanO rest

theorem lastIdScan_cons (l : Chars) (rest : List Chars) :
    lastIdScan (l :: rest) =
      if ("http".data).isPrefixOf (pyStrip l) then
        match searchSlashNumId (pyStrip l) with
        | some n => n
        | none => lastIdScan rest
      else lastIdScan rest := rfl

theorem lastIdScanO_cons (l : Chars) (rest : List Chars) :
    lastIdScanO (l :: rest) =
      if ("http".data).isPrefixOf (pyStrip l) then
        match searchSlashNumId (pyStrip l) with
        | some n => some n
        | none => lastIdScanO rest
      else lastIdScanO rest := rfl

theorem lastIdScan_eq_scanO (ls : List Chars) :
    lastIdScan ls = (lastIdScanO ls).getD 0 := by
  induction ls with
  | nil => rfl
  | cons l rest ih =>
    rw [lastIdScan_cons, lastIdScanO_cons]
    by_cases hp : ("http".data).isPrefixOf (pyStrip l) = true
    · rw [if_pos hp, if_pos hp]
      cases hkey : searchSlashNumId (pyStrip l) <;> simp [ih]
    · rw [if_neg hp, if_neg hp]
      exact ih

theorem lastIdScanO_append (A B : List Chars) :
    lastIdScanO (A ++ B) =
      match lastIdScanO A with
      | some n => some n
      | none => lastIdScanO B := by
  induction A with
  | nil => rfl
  | cons l rest ih =>
    show lastIdScanO (l :: (rest ++ B)) = _
    rw [lastIdScanO_cons, lastIdScanO_cons]
    by_cases hp : ("http".data).isPrefixOf (pyStrip l) = true
    · rw [if_pos hp, if_pos hp]
      cases hkey : searchSlashNumId (pyStrip l) <;> simp [ih]
    · rw [if_neg hp, if_neg hp]
      exact ih

/-- A digit is not whitespace. -/
theorem isDigit_not_ws (d : Char) (hdd : d.isDigit = true) :
    d.isWhitespace = false := by
  cases hw : d.isWhitespace
  · rfl
  · exfalso
    have h := hw
    simp only [Char.isWhitespace, Bool.or_eq_true, decide_eq_true_eq] at h
    rcases h with ((h | h) | h) | h <;> (subst h; exact absurd hdd (by decide))

/-- An ordinal line `"{i}. {name}"` never passes the `startswith("http")`
test: its stripped form still starts with a digit. -/
theorem ordinal_line_not_http (i : Nat) (name : Chars) :
    ("http".data).isPrefixOf (pyStrip (natRepr i ++ ". ".data ++ name)) = false := by
  obtain ⟨d, t, hdt⟩ : ∃ d t, natRepr i = d :: t := by
    cases h : natRepr i with
    | nil => exact absurd h (natRepr_ne_nil i)
    | cons d t => exact ⟨d, t, rfl⟩
  have hdd : d.isDigit = true := natRepr_all_digit i d (by rw [hdt]; simp)
  rw [hdt]
  simp only [List.cons_append]
  obtain ⟨t2, ht2⟩ := pyStrip_cons_not_ws d (t ++ ". ".data ++ name)
    (isDigit_not_ws d hdd)
  rw [ht2]
  exact http_not_prefix_of_digit d t2 hdd

/-- The reversed-line scan over rendered records returns the id extracted
from the last record (from the end) whose URL yields a regex match. -/
theorem lastIdScanO_render :
    ∀ (R : List (Chars × Chars)) (i : Nat),
      (∀ p ∈ R, pyStrip p.2 = p.2 ∧ ("http".data).isPrefixOf p.2 = true) →
      lastIdScanO ((renderProductLines i R).reverse) =
        (R.reverse.filterMap (fun p => searchSlashNumId p.2)).head? := by
  intro R
  induction R with
  | nil => intro i _; rfl
  | cons hd rest ih =>
    intro i hR
    obtain ⟨name, url⟩ := hd
    have hstrip : pyStrip url = url := (hR (name, url) (by simp)).1
    have hpre : ("http".data).isPrefixOf url = true := (hR (name, url) (by simp)).2
    have hline1 := ordinal_line_not_http i name
    have hrev : ((natRepr i ++ ". ".data ++ name) :: url :: [] ::
        renderProductLines (i + 1) rest).reverse =
        (renderProductLines (i + 1) rest).reverse ++
          ([] :: url :: [(natRepr i ++ ". ".data ++ name)]) := by
      simp
    show lastIdScanO (((natRepr i ++ ". ".data ++ name) :: url :: [] ::
        renderProductLines (i + 1) rest).reverse) = _
    rw [hrev, lastIdScanO_append, ih (i + 1) (fun p hp => hR p (by simp [hp]))]
    have hnilline : ("http".data).isPrefixOf (pyStrip ([] : Chars)) = false := by
      decide
    have hblock : lastIdScanO ([] :: url :: [(natRepr i ++ ". ".data ++ name)]) =
        searchSlashNumId url := by
      rw [lastIdScanO_cons, if_neg (by rw [hnilline]; exact Bool.false_ne_true)]
      rw [lastIdScanO_cons, hstrip, if_pos hpre]
      cases hkey : searchSlashNumId url with
      | some n => rfl
      | none =>
        rw [lastIdScanO_cons, if_neg (by rw [hline1]; exact Bool.false_ne_true)]
        rfl
    rw [hblock]
    have hfm : (((name, url) :: rest).reverse).filterMap
        (fun p => searchSlashNumId p.2) =
        rest.reverse.filterMap (fun p => searchSlashNumId p.2) ++
          (searchSlashNumId url).toList := by
      rw [List.reverse_cons, List.filterMap_append]
      cases hkey : searchSlashNumId url <;>
        simp [List.filterMap_cons, hkey]
    rw [hfm]
    cases hA : rest.reverse.filterMap (fun p => searchSlashNumId p.2) with
    | nil =>
      cases hkey : searchSlashNumId url <;> simp
    | cons a as => simp

/- ----------------------------------------------------------------
   Claim C1: last_identifier
   ---------------------------------------------------------------- -/

/-- Modelled from the spec (for refinement comparison only): "highest
identifier recoverable from the trailing numeric path segment of any stored
canonical URL, or 0 if none". -/
def spec_last_identifier (records : List (Chars × Chars)) : Nat :=
  (records.filterMap (fun p => searchSlashNumId p.2)).foldl max 0

/-- Claim C1 counterexample: a store whose last record's URL carries a
smaller identifier than an earlier record's.  `get_last_id_from_file`
returns 10 (the id of the last URL line), not the highest recoverable
identifier 50, refuting "returns the highest identifier recoverable from
... any stored canonical URL". -/
theorem last_identifier_not_highest_cx :
    get_last_id_from_file (some (renderProductLines 1
        [("a".data, "https://x.test/surl/p/50".data),
         ("b".data, "https://x.test/surl/p/10".data)])) = 10 ∧
    spec_last_identifier
        [("a".data, "https://x.test/surl/p/50".data),
         ("b".data, "https://x.test/surl/p/10".data)] = 50 ∧
    (10 : Nat) ≠ 50 := by
  decide

/-- Claim C1 (amended): for every stored record list (URLs stripped and
starting with `http`, as canonical URLs are), the last-identifier operation
returns the identifier extracted (first `/number` followed by `/`, `?`, `#`
or end) from the LAST stored canonical URL that yields a match, scanning the
file from the end — not the highest such identifier — and 0 when no stored
URL yields one. -/
theorem last_identifier_is_last_stored_match
    (R : List (Chars × Chars))
    (hR : ∀ p ∈ R, pyStrip p.2 = p.2 ∧ ("http".data).isPrefixOf p.2 = true) :
    get_last_id_from_file (some (renderProductLines 1 R)) =
      ((R.reverse.filterMap (fun p => searchSlashNumId p.2)).head?).getD 0 := by
  show lastIdScan ((renderProductLines 1 R).reverse) = _
  rw [lastIdScan_eq_scanO, lastIdScanO_render R 1 hR]

/-- Witness for the amended C1 theorem at a concrete two-record store. -/
theorem last_identifier_is_last_stored_match_witness :
    get_last_id_from_file (some (renderProductLines 1
        [("a".data, "https://y.test/surl/p/7".data),
         ("b".data, "https://y.test/surl/p/3".data)])) =
      (([("a".data, "https://y.test/surl/p/7".data),
         ("b".data, "https://y.test/surl/p/3".data)].reverse.filterMap
          (fun p => searchSlashNumId p.2)).head?).getD 0 :=
  last_identifier_is_last_stored_match _ (by decide)

/- ----------------------------------------------------------------
   Claim C2: product name extraction
   ---------------------------------------------------------------- -/

/-- A body carrying an Open-Graph title, a Twitter-card title and a document
title element, with three different contents. -/
def og_title_body : Chars :=
  ("<html><head><meta property=\"og:title\" content=\"OG Name\"/>").data ++
   ("<meta name=\"twitter:title\" content=\"TW Name\"/>").data ++
   ("<title>Doc Title</title></head><body></body></html>").data

/-- The same body without any title element. -/
def meta_only_body : Chars :=
  ("<html><head><meta property=\"og:title\" content=\"OG Name\"/>").data ++
   ("<meta name=\"twitter:title\" content=\"TW Name\"/>").data ++
   ("</head><body></body></html>").data

/-- Claim C2 counterexample: for a body containing an og:title meta tag
whose content differs from the title element's text, the extracted name is
the title element's text, not the og:title content — the Open-Graph and
Twitter patterns are commented out in the source. -/
theorem extract_name_ignores_og_title_cx :
    extract_product_name og_title_body = ("Doc Title").data ∧
    extract_product_name og_title_body ≠ ("OG Name").data := by
  have h : extract_product_name og_title_body = ("Doc Title").data := rfl
  exact ⟨h, by rw [h]; decide⟩

/-- Claim C2 (amended): name extraction tries only the document title
element (the Open-Graph and Twitter-card patterns are disabled in the
source): with all three present the title element's text is extracted, and
with only the two meta titles present extraction fails with the fixed
marker. -/
theorem extract_name_title_only_amended :
    extract_product_name og_title_body = ("Doc Title").data ∧
    extract_product_name meta_only_body = ("(제품명 추출 실패)").data :=
  ⟨rfl, rfl⟩

/- ----------------------------------------------------------------
   Claim C7: the redirect-to-home oracle rule
   ---------------------------------------------------------------- -/

/-- Claim C7: for status 200, whenever the requested and final URLs differ
after normalization and the final URL is home-like, the oracle classifies
Missing regardless of the body (rule 2 short-circuits before any body
inspection); in particular the documented x.test redirect example. -/
theorem oracle_redirect_home_missing :
    (∀ requested finalUrl html : Chars,
        normalize_for_compare requested ≠ normalize_for_compare finalUrl →
        is_homepage finalUrl = true →
        looks_not_found 200 requested finalUrl html = true) ∧
    (∀ html : Chars,
        looks_not_found 200 ("https://x.test/tpl/42".data)
          ("https://x.test/".data) html = true) := by
  have hgen : ∀ requested finalUrl html : Chars,
      normalize_for_compare requested ≠ normalize_for_compare finalUrl →
      is_homepage finalUrl = true →
      looks_not_found 200 requested finalUrl html = true := by
    intro req fin html hdiff hhome
    unfold looks_not_found
    rw [if_neg (by simp)]
    rw [if_pos ⟨hdiff, hhome⟩]
  exact ⟨hgen, fun html => hgen _ _ html (by decide) (by decide)⟩

/-- Witness for C7 at the documented concrete redirect. -/
theorem oracle_redirect_home_missing_witness :
    looks_not_found 200 ("https://x.test/tpl/42".data) ("https://x.test/".data)
      ("anything".data) = true :=
  oracle_redirect_home_missing.1 _ _ _ (by decide) (by decide)

/- ----------------------------------------------------------------
   Scan-pass lemmas shared by the state-machine claims
   ---------------------------------------------------------------- -/

/-- `some (text, finalUrl)` exactly when the fetch at the current cursor is
classified Exists by the oracle. -/
def hitOutcome (cfg : ScanConfig) (s : PassState) : Option (Chars × Chars) :=
  let url := format_id cfg.template_url s.product_id
  match cfg.http url with
  | .exn => none
  | .resp status fin text =>
    if looks_not_found status url fin text then none else some (text, fin)

/-- The records one loop iteration appends: one record when the outcome is
Exists and its final URL is not yet in the seen set, none otherwise. -/
def stepAppends (cfg : ScanConfig) (s : PassState) : List (Chars × Chars) :=
  match hitOutcome cfg s with
  | none => []
  | some (text, fin) =>
    if s.seen fin then [] else [(extract_product_name text, fin)]

theorem loopEnd_products (cfg : ScanConfig) (s : PassState) :
    ((loopEnd cfg s).state).found_products = s.found_products := by
  unfold loopEnd
  split
  · split <;> rfl
  · rfl

theorem loopEnd_urls (cfg : ScanConfig) (s : PassState) :
    ((loopEnd cfg s).state).found_urls = s.found_urls := by
  unfold loopEnd
  split
  · split <;> rfl
  · rfl

theorem missState_products (s : PassState) :
    (missState s).found_products = s.found_products := rfl

theorem missState_urls (s : PassState) :
    (missState s).found_urls = s.found_urls := rfl

theorem hitState_products (s : PassState) :
    (hitState s).found_products = s.found_products := rfl

theorem hitState_urls (s : PassState) :
    (hitState s).found_urls = s.found_urls := rfl

theorem hitState_seen (s : PassState) (u : Chars) :
    (hitState s).seen u = s.seen u := rfl

theorem appendProduct_products (s : PassState) (text finalUrl : Chars) :
    (appendProduct s text finalUrl).found_products =
      s.found_products ++ [(extract_product_name text, finalUrl)] := rfl

theorem appendProduct_urls (s : PassState) (text finalUrl : Chars) :
    (appendProduct s text finalUrl).found_urls =
      s.found_urls ++ [finalUrl] := rfl

/-- One iteration appends exactly `stepAppends` to the product list, and its
final URLs to the seen set: a record is appended iff the outcome is Exists
and its final URL is new. -/
theorem scan_step_accum (cfg : ScanConfig) (s : PassState) :
    ((scan_step cfg s).state).found_products =
      s.found_products ++ stepAppends cfg s ∧
    ((scan_step cfg s).state).found_urls =
      s.found_urls ++ (stepAppends cfg s).map Prod.snd := by
  cases hf : cfg.http (format_id cfg.template_url s.product_id) with
  | exn =>
    simp [scan_step, stepAppends, hitOutcome, hf, loopEnd_products, loopEnd_urls,
      missState_products, missState_urls]
  | resp status fin text =>
    by_cases hlnf :
        looks_not_found status (format_id cfg.template_url s.product_id) fin text = true
    · simp [scan_step, stepAppends, hitOutcome, hf, hlnf, loopEnd_products,
        loopEnd_urls, missState_products, missState_urls]
    · simp only [Bool.not_eq_true] at hlnf
      by_cases hseen : s.seen fin = true
      · simp only [scan_step, stepAppends, hitOutcome, hf, hlnf,
          Bool.false_eq_true, if_false, hitState_seen, hseen, if_true]
        split
        · simp [StepResult.state, hitState_products, hitState_urls]
        · simp [loopEnd_products, loopEnd_urls, hitState_products, hitState_urls]
      · simp only [Bool.not_eq_true] at hseen
        simp only [scan_step, stepAppends, hitOutcome, hf, hlnf,
          Bool.false_eq_true, if_false, hitState_seen, hseen]
        split
        · simp [StepResult.state, appendProduct_products, appendProduct_urls,
            hitState_products, hitState_urls]
        · simp [loopEnd_products, loopEnd_urls, appendProduct_products,
            appendProduct_urls, hitState_products, hitState_urls]

/-- Along any run, the caller-supplied accumulators only grow by appending:
the original lists are prefixes of the resulting ones. -/
theorem scan_run_preserve (cfg : ScanConfig) :
    ∀ (fuel : Nat) (s : PassState),
      s.found_products <+: ((scan_run cfg fuel s).state).found_products ∧
      s.found_urls <+: ((scan_run cfg fuel s).state).found_urls := by
  intro fuel
  induction fuel with
  | zero => intro s; simp [scan_run, RunResult.state]
  | succ fuel ih =>
    intro s
    rw [scan_run]
    obtain ⟨h1, h2⟩ := scan_step_accum cfg s
    cases hstep : scan_step cfg s with
    | cont s2 =>
      rw [hstep] at h1 h2
      simp only [StepResult.state] at h1 h2
      obtain ⟨ih1, ih2⟩ := ih s2
      exact ⟨(h1 ▸ List.prefix_append _ _).trans ih1,
             (h2 ▸ List.prefix_append _ _).trans ih2⟩
    | anomaly s2 r f =>
      rw [hstep] at h1 h2
      simp only [StepResult.state] at h1 h2
      simp only [RunResult.state]
      exact ⟨h1 ▸ List.prefix_append _ _, h2 ▸ List.prefix_append _ _⟩
    | done s2 =>
      rw [hstep] at h1 h2
      simp only [StepResult.state] at h1 h2
      simp only [RunResult.state]
      exact ⟨h1 ▸ List.prefix_append _ _, h2 ▸ List.prefix_append _ _⟩

/-- Either nothing is appended, or exactly one record whose URL was not in
the seen set. -/
theorem stepAppends_cases (cfg : ScanConfig) (s : PassState) :
    stepAppends cfg s = [] ∨
    ∃ text fin, stepAppends cfg s = [(extract_product_name text, fin)] ∧
      s.seen fin = false := by
  unfold stepAppends
  cases hh : hitOutcome cfg s with
  | none => exact Or.inl rfl
  | some p =>
    obtain ⟨text, fin⟩ := p
    by_cases hseen : s.seen fin = true
    · simp [hseen]
    · simp only [Bool.not_eq_true] at hseen
      exact Or.inr ⟨text, fin, by simp [hseen], hseen⟩

/-- The seen-set test agrees with membership. -/
theorem seen_iff (s : PassState) (u : Chars) :
    s.seen u = true ↔ u ∈ s.found_urls := by
  unfold PassState.seen
  exact List.elem_iff

/-- The structural invariant of the accumulators: canonical URLs in the
product list are pairwise distinct and all present in the seen set. -/
def ProductInv (s : PassState) : Prop :=
  (s.found_products.map Prod.snd).Nodup ∧
    ∀ p ∈ s.found_products, p.2 ∈ s.found_urls

theorem scan_step_inv (cfg : ScanConfig) (s : PassState) (h : ProductInv s) :
    ProductInv ((scan_step cfg s).state) := by
  obtain ⟨h1, h2⟩ := scan_step_accum cfg s
  obtain ⟨hnd, hmem⟩ := h
  rcases stepAppends_cases cfg s with happ | ⟨text, fin, happ, hseen⟩
  · rw [happ] at h1 h2
    simp only [List.append_nil, List.map_nil] at h1 h2
    exact ⟨h1 ▸ hnd, fun p hp => h2 ▸ hmem p (h1 ▸ hp)⟩
  · rw [happ] at h1 h2
    have hfin : fin ∉ s.found_urls := by
      intro hmem2
      rw [← seen_iff] at hmem2
      rw [hseen] at hmem2
      exact Bool.false_ne_true hmem2
    constructor
    · rw [h1]
      simp only [List.map_append, List.map_cons, List.map_nil]
      rw [List.nodup_append]
      refine ⟨hnd, by simp, ?_⟩
      intro a ha
      simp only [List.mem_singleton]
      intro hb
      subst hb
      obtain ⟨p, hp, hp2⟩ := List.mem_map.mp ha
      exact hfin (hp2 ▸ hmem p hp)
    · intro p hp
      rw [h1] at hp
      rw [h2]
      rcases List.mem_append.mp hp with hp | hp
      · exact List.mem_append_left _ (hmem p hp)
      · simp only [List.mem_singleton] at hp
        subst hp
        simp
    
theorem scan_run_inv (cfg : ScanConfig) :
    ∀ (fuel : Nat) (s : PassState), ProductInv s →
      ProductInv ((scan_run cfg fuel s).state) := by
  intro fuel
  induction fuel with
  | zero => intro s h; simpa [scan_run, RunResult.state] using h
  | succ fuel ih =>
    intro s h
    rw [scan_run]
    have hstep := scan_step_inv cfg s h
    cases hs : scan_step cfg s with
    | cont s2 =>
      rw [hs] at hstep
      exact ih s2 hstep
    | anomaly s2 r f =>
      rw [hs] at hstep
      simpa [RunResult.state] using hstep
    | done s2 =>
      rw [hs] at hstep
      simpa [RunResult.state] using hstep

/- ----------------------------------------------------------------
   Claim C9: append-only, deduplicated accumulation
   ---------------------------------------------------------------- -/

/-- Claim C9: throughout every pass, one iteration appends a product record
exactly when the outcome is Exists and its final URL is not yet in the seen
set (`stepAppends`), records are only ever appended (the accumulator before
any number of iterations is a prefix of the accumulator after, so no record
is updated or deleted), and the accumulated list never holds two records
with the same canonical URL. -/
theorem product_append_iff_new_exists :
    (∀ (cfg : ScanConfig) (s : PassState),
      ((scan_step cfg s).state).found_products =
        s.found_products ++ stepAppends cfg s ∧
      ((scan_step cfg s).state).found_urls =
        s.found_urls ++ (stepAppends cfg s).map Prod.snd) ∧
    (∀ (cfg : ScanConfig) (fuel : Nat) (s : PassState), ProductInv s →
      ProductInv ((scan_run cfg fuel s).state) ∧
      s.found_products <+: ((scan_run cfg fuel s).state).found_products) :=
  ⟨scan_step_accum, fun cfg fuel s h =>
    ⟨scan_run_inv cfg fuel s h, (scan_run_preserve cfg fuel s).1⟩⟩

/-- Concrete network and pass configuration for the C9 witness. -/
def c9_cfg : ScanConfig :=
  ⟨("https://w.test/surl/p/\x7bid\x7d").data, 100, false, fun _ => Fetch.exn⟩

/-- Witness for C9 at a concrete configuration and empty accumulators. -/
theorem product_append_iff_new_exists_witness :
    ProductInv (initPassState 3 [] []) ∧
    (ProductInv ((scan_run c9_cfg 1 (initPassState 3 [] [])).state) ∧
      (initPassState 3 [] []).found_products <+:
        ((scan_run c9_cfg 1 (initPassState 3 [] [])).state).found_products) :=
  ⟨⟨List.nodup_nil, fun p hp => absurd hp (List.not_mem_nil p)⟩,
   product_append_iff_new_exists.2 c9_cfg 1 (initPassState 3 [] [])
     ⟨List.nodup_nil, fun p hp => absurd hp (List.not_mem_nil p)⟩⟩

/- ----------------------------------------------------------------
   Claim C10: the anomaly abort keeps the accumulated state
   ---------------------------------------------------------------- -/

theorem loopEnd_ne_anomaly (cfg : ScanConfig) (s s2 : PassState)
    (req fin : Chars) : loopEnd cfg s ≠ .anomaly s2 req fin := by
  unfold loopEnd
  split
  · split <;> simp
  · simp

/-- When one iteration raises the anomaly, the aborting final URL is already
in the seen set the caller observes. -/
theorem scan_step_anomaly_fin (cfg : ScanConfig) (s s2 : PassState)
    (req fin : Chars) (h : scan_step cfg s = .anomaly s2 req fin) :
    fin ∈ s2.found_urls := by
  cases hf : cfg.http (format_id cfg.template_url s.product_id) with
  | exn =>
    simp only [scan_step, hf] at h
    exact absurd h (loopEnd_ne_anomaly cfg _ s2 req fin)
  | resp status fin2 text =>
    simp only [scan_step, hf] at h
    by_cases hlnf :
        looks_not_found status (format_id cfg.template_url s.product_id) fin2 text = true
    · rw [if_pos hlnf] at h
      exact absurd h (loopEnd_ne_anomaly cfg _ s2 req fin)
    · simp only [Bool.not_eq_true] at hlnf
      rw [hlnf] at h
      simp only [Bool.false_eq_true, if_false] at h
      by_cases hseen : (hitState s).seen fin2 = true
      · rw [if_pos hseen] at h
        split at h
        · simp only [StepResult.anomaly.injEq] at h
          obtain ⟨rfl, _, rfl⟩ := h
          exact (seen_iff _ _).mp hseen
        · exact absurd h (loopEnd_ne_anomaly cfg _ s2 req fin)
      · rw [if_neg hseen] at h
        split at h
        · simp only [StepResult.anomaly.injEq] at h
          obtain ⟨rfl, _, rfl⟩ := h
          rw [appendProduct_urls, hitState_urls]
          simp
        · exact absurd h (loopEnd_ne_anomaly cfg _ s2 req fin)

/-- Along a run that ends in the anomaly, the aborting final URL is in the
resulting seen set. -/
theorem scan_run_anomaly_fin (cfg : ScanConfig) :
    ∀ (fuel : Nat) (s s2 : PassState) (req fin : Chars),
      scan_run cfg fuel s = .anomaly s2 req fin → fin ∈ s2.found_urls := by
  intro fuel
  induction fuel with
  | zero => intro s s2 req fin h; exact absurd h (by simp [scan_run])
  | succ fuel ih =>
    intro s s2 req fin h
    rw [scan_run] at h
    cases hs : scan_step cfg s with
    | cont s3 =>
      rw [hs] at h
      exact ih s3 s2 req fin h
    | anomaly s3 r f =>
      rw [hs] at h
      simp only [RunResult.anomaly.injEq] at h
      rcases h with ⟨rfl, rfl, rfl⟩
      exact scan_step_anomaly_fin cfg s s3 r f hs
    | done s3 =>
      rw [hs] at h
      exact absurd h (by simp)

/-- Every URL in the seen set is either caller-supplied or carried by some
accumulated product record. -/
def UrlsAccounted (s0 s : PassState) : Prop :=
  ∀ u ∈ s.found_urls, u ∈ s0.found_urls ∨ ∃ nm, (nm, u) ∈ s.found_products

theorem scan_step_accounted (cfg : ScanConfig) (s0 s : PassState)
    (h : UrlsAccounted s0 s) : UrlsAccounted s0 ((scan_step cfg s).state) := by
  obtain ⟨h1, h2⟩ := scan_step_accum cfg s
  intro u hu
  rw [h2] at hu
  rcases List.mem_append.mp hu with hu | hu
  · rcases h u hu with hl | ⟨nm, hnm⟩
    · exact Or.inl hl
    · exact Or.inr ⟨nm, h1 ▸ List.mem_append_left _ hnm⟩
  · rcases stepAppends_cases cfg s with happ | ⟨text, fin, happ, _⟩
    · rw [happ] at hu
      simp at hu
    · rw [happ] at hu
      simp only [List.map_cons, List.map_nil, List.mem_singleton] at hu
      subst hu
      exact Or.inr ⟨extract_product_name text, h1 ▸ happ ▸
        List.mem_append_right _ (by simp)⟩

theorem scan_run_accounted (cfg : ScanConfig) :
    ∀ (fuel : Nat) (s0 s : PassState), UrlsAccounted s0 s →
      UrlsAccounted s0 ((scan_run cfg fuel s).state) := by
  intro fuel
  induction fuel with
  | zero => intro s0 s h; simpa [scan_run, RunResult.state] using h
  | succ fuel ih =>
    intro s0 s h
    rw [scan_run]
    have hstep := scan_step_accounted cfg s0 s h
    cases hs : scan_step cfg s with
    | cont s2 =>
      rw [hs] at hstep
      exact ih s0 s2 hstep
    | anomaly s2 r f =>
      rw [hs] at hstep
      simpa [RunResult.state] using hstep
    | done s2 =>
      rw [hs] at hstep
      simpa [RunResult.state] using hstep

/-- Claim C10: when a run aborts with the anomaly error, the caller-visible
accumulators hold everything discovered before the abort — the initial
product list is a prefix of the aborted state's list (nothing is rolled
back), the aborting iteration's final URL is in the seen set, and every seen
URL beyond the caller-supplied ones is carried by an accumulated product
record (so a product discovered on the aborting 200th hit itself, when its
URL is new, is in the returned list). -/
theorem anomaly_preserves_accumulator
    (cfg : ScanConfig) (fuel : Nat) (s s2 : PassState) (req fin : Chars)
    (h : scan_run cfg fuel s = .anomaly s2 req fin) :
    s.found_products <+: s2.found_products ∧
    fin ∈ s2.found_urls ∧
    (∀ u ∈ s2.found_urls,
      u ∈ s.found_urls ∨ ∃ nm, (nm, u) ∈ s2.found_products) := by
  have hstate : (scan_run cfg fuel s).state = s2 := by rw [h]; rfl
  refine ⟨hstate ▸ (scan_run_preserve cfg fuel s).1,
    scan_run_anomaly_fin cfg fuel s s2 req fin h, ?_⟩
  have := scan_run_accounted cfg fuel s s (fun u hu => Or.inl hu)
  rw [hstate] at this
  exact this

/-- A 250-`a` body that the oracle classifies Exists. -/
def existsBody : Chars := List.replicate 250 'a'

/-- Concrete network for the C10 witness: every URL resolves to one page. -/
def c10_http : Http := fun _ => Fetch.resp 200 (("https://w.test/p").data) existsBody

def c10_cfg : ScanConfig :=
  ⟨("https://w.test/surl/p/\x7bid\x7d").data, 100, false, c10_http⟩

/-- A state one hit away from the anomaly threshold. -/
def c10_state : PassState := ⟨7, 0, 199, false, [], []⟩

/-- Witness for C10: a one-step run that aborts with the anomaly, applied to
the theorem at concrete inputs. -/
theorem anomaly_preserves_accumulator_witness :
    ([] : List (Chars × Chars)) <+:
      [(("(제품명 추출 실패)").data, ("https://w.test/p").data)] ∧
    ("https://w.test/p").data ∈ [("https://w.test/p").data] ∧
    (∀ u ∈ [("https://w.test/p").data],
      u ∈ ([] : List Chars) ∨
        ∃ nm, (nm, u) ∈ [(("(제품명 추출 실패)").data, ("https://w.test/p").data)]) := by
  have h : scan_run c10_cfg 1 c10_state =
      .anomaly ⟨7, 0, 200, false,
        [(("(제품명 추출 실패)").data, ("https://w.test/p").data)],
        [("https://w.test/p").data]⟩
        (("https://w.test/surl/p/7").data) (("https://w.test/p").data) := by
    rfl
  exact anomaly_preserves_accumulator c10_cfg 1 c10_state _ _ _ h

/- ----------------------------------------------------------------
   Claim C5: the anomaly guard fires exactly at the threshold
   ---------------------------------------------------------------- -/

/-- `Exists` at the requested URL, as a Boolean on the transport outcome. -/
def isHit (f : Fetch) (requested : Chars) : Bool :=
  match f with
  | .exn => false
  | .resp status fin text => !looks_not_found status requested fin text

/-- The final URL carried by a response (`r.url`). -/
def Fetch.finalOf : Fetch → Chars
  | .exn => []
  | .resp _ fin _ => fin

theorem hitBranch_hits (s : PassState) (text fin : Chars) :
    (if (hitState s).seen fin = true then hitState s
     else appendProduct (hitState s) text fin).consecutive_hits =
      s.consecutive_hits + 1 := by
  split <;> rfl

theorem hitBranch_misses (s : PassState) (text fin : Chars) :
    (if (hitState s).seen fin = true then hitState s
     else appendProduct (hitState s) text fin).consecutive_misses = 0 := by
  split <;> rfl

theorem hitBranch_pid (s : PassState) (text fin : Chars) :
    (if (hitState s).seen fin = true then hitState s
     else appendProduct (hitState s) text fin).product_id = s.product_id := by
  split <;> rfl

theorem loopEnd_cont (cfg : ScanConfig) (x : PassState)
    (h : x.consecutive_misses < cfg.stop_after_consecutive_misses) :
    loopEnd cfg x = .cont (advanceState x) := by
  unfold loopEnd
  rw [if_neg (by omega)]

/-- One iteration on a hit: the anomaly fires iff the incremented streak
reaches the threshold; otherwise the pass continues with the cursor
advanced by one. -/
theorem scan_step_hit (cfg : ScanConfig) (s : PassState)
    (hstop : 0 < cfg.stop_after_consecutive_misses)
    (hhit : isHit (cfg.http (format_id cfg.template_url s.product_id))
      (format_id cfg.template_url s.product_id) = true) :
    (s.consecutive_hits + 1 ≥ STOP_AFTER_CONSECUTIVE_HITS →
      ∃ s2, scan_step cfg s = .anomaly s2
        (format_id cfg.template_url s.product_id)
        ((cfg.http (format_id cfg.template_url s.product_id)).finalOf)) ∧
    (s.consecutive_hits + 1 < STOP_AFTER_CONSECUTIVE_HITS →
      ∃ s2, scan_step cfg s = .cont s2 ∧ s2.product_id = s.product_id + 1 ∧
        s2.consecutive_hits = s.consecutive_hits + 1) := by
  cases hf : cfg.http (format_id cfg.template_url s.product_id) with
  | exn =>
    rw [hf] at hhit
    exact absurd hhit (by simp [isHit])
  | resp status fin text =>
    rw [hf] at hhit
    have hlnf : looks_not_found status (format_id cfg.template_url s.product_id)
        fin text = false := by
      simpa [isHit] using hhit
    constructor
    · intro hge
      refine ⟨if (hitState s).seen fin = true then hitState s
        else appendProduct (hitState s) text fin, ?_⟩
      simp only [scan_step, hf, hlnf, Bool.false_eq_true, if_false]
      rw [if_pos (by rw [hitBranch_hits]; omega)]
      rfl
    · intro hlt
      have hstep : scan_step cfg s = .cont
          (advanceState (if (hitState s).seen fin = true then hitState s
            else appendProduct (hitState s) text fin)) := by
        simp only [scan_step, hf, hlnf, Bool.false_eq_true, if_false]
        rw [if_neg (by rw [hitBranch_hits]; omega)]
        exact loopEnd_cont cfg _ (by rw [hitBranch_misses]; omega)
      refine ⟨_, hstep, ?_, ?_⟩
      · show (if (hitState s).seen fin = true then hitState s
            else appendProduct (hitState s) text fin).product_id + 1 =
          s.product_id + 1
        rw [hitBranch_pid]
      · show (if (hitState s).seen fin = true then hitState s
            else appendProduct (hitState s) text fin).consecutive_hits =
          s.consecutive_hits + 1
        exact hitBranch_hits s text fin

/-- All-hit runs raise the anomaly exactly when the streak reaches the
threshold: with `k` hits left to the threshold, `k - 1` further iterations
are still running, and the `k`-th raises the anomaly carrying the last
requested and final URLs. -/
theorem scan_run_hits_anomaly (cfg : ScanConfig)
    (hstop : 0 < cfg.stop_after_consecutive_misses) :
    ∀ (k : Nat) (s : PassState), 0 < k →
      (∀ i < k, isHit (cfg.http (format_id cfg.template_url (s.product_id + i)))
        (format_id cfg.template_url (s.product_id + i)) = true) →
      s.consecutive_hits + k = STOP_AFTER_CONSECUTIVE_HITS →
      (∀ j < k, ∃ s2, scan_run cfg j s = .fuelOut s2) ∧
      ∃ s2, scan_run cfg k s = .anomaly s2
        (format_id cfg.template_url (s.product_id + (k - 1)))
        ((cfg.http (format_id cfg.template_url (s.product_id + (k - 1)))).finalOf) := by
  intro k
  induction k with
  | zero => intro s h0; exact absurd h0 (by omega)
  | succ k ih =>
    intro s _ hhits hsum
    by_cases hk : k = 0
    · subst hk
      have hh := hhits 0 (by omega)
      simp only [Nat.add_zero] at hh
      obtain ⟨s2, hstep⟩ := (scan_step_hit cfg s hstop hh).1 (by omega)
      constructor
      · intro j hj
        interval_cases j
        exact ⟨s, rfl⟩
      · refine ⟨s2, ?_⟩
        rw [scan_run, hstep]
        simp
    · have hh := hhits 0 (by omega)
      simp only [Nat.add_zero] at hh
      obtain ⟨s2, hstep, hpid, hhits2⟩ :=
        (scan_step_hit cfg s hstop hh).2 (by omega)
      have ihh := ih s2 (by omega)
        (by
          intro i hi
          have := hhits (i + 1) (by omega)
          rw [hpid]
          have harith : s.product_id + (i + 1) = s.product_id + 1 + i := by omega
          rw [harith] at this
          exact this)
        (by omega)
      constructor
      · intro j hj
        cases j with
        | zero => exact ⟨s, rfl⟩
        | succ j2 =>
          rw [scan_run, hstep]
          exact ihh.1 j2 (by omega)
      · obtain ⟨s3, h3⟩ := ihh.2
        refine ⟨s3, ?_⟩
        rw [scan_run, hstep]
        have heq : s2.product_id + (k - 1) = s.product_id + (k + 1 - 1) := by omega
        rw [heq] at h3
        exact h3

/-- Claim C5: the anomaly threshold is 200, and a pass whose first 200
outcomes are all classified Exists is still running after any fewer than
200 iterations, and raises the anomaly — carrying the last requested URL
and the last final URL — at exactly the 200th. -/
theorem anomaly_at_exactly_200_hits
    (cfg : ScanConfig) (start : Nat) (products0 : List (Chars × Chars))
    (urls0 : List Chars)
    (hstop : 0 < cfg.stop_after_consecutive_misses)
    (hhits : ∀ i < STOP_AFTER_CONSECUTIVE_HITS,
      isHit (cfg.http (format_id cfg.template_url (start + i)))
        (format_id cfg.template_url (start + i)) = true) :
    STOP_AFTER_CONSECUTIVE_HITS = 200 ∧
    (∀ j < STOP_AFTER_CONSECUTIVE_HITS,
      ∃ s2, scan_run cfg j (initPassState start products0 urls0) = .fuelOut s2) ∧
    ∃ s2, scan_run cfg STOP_AFTER_CONSECUTIVE_HITS
        (initPassState start products0 urls0) =
      .anomaly s2
        (format_id cfg.template_url (start + (STOP_AFTER_CONSECUTIVE_HITS - 1)))
        ((cfg.http (format_id cfg.template_url
          (start + (STOP_AFTER_CONSECUTIVE_HITS - 1)))).finalOf) := by
  have h := scan_run_hits_anomaly cfg hstop STOP_AFTER_CONSECUTIVE_HITS
    (initPassState start products0 urls0) (by decide) hhits rfl
  exact ⟨rfl, h.1, h.2⟩

/-- A response independent of the request that rule 2 cannot catch (the
final URL is not home-like) with a clean, long body: always a hit. -/
theorem isHit_of_resp (requested fin text : Chars)
    (hhome : is_homepage fin = false)
    (hkw : NOT_FOUND_KEYWORDS.any
      (fun kw => containsSub (lowerAll (text.take 20000)) kw) = false)
    (hlen : ¬ (pyStrip (lowerAll (text.take 20000))).length < 200) :
    isHit (Fetch.resp 200 fin text) requested = true := by
  have h2 : looks_not_found 200 requested fin text = false := by
    unfold looks_not_found
    rw [if_neg (by simp)]
    rw [if_neg (by simp [hhome])]
    simp only [hkw, Bool.false_eq_true, if_false]
    rw [if_neg hlen]
  simp [isHit, h2]

def c5_http : Http := fun _ => Fetch.resp 200 (("https://w5.test/p").data) existsBody

def c5_cfg : ScanConfig :=
  ⟨("https://w5.test/surl/p/\x7bid\x7d").data, 100, false, c5_http⟩

/-- Witness for C5: a constant always-hit network; after 150 iterations the
pass is still running, and at 200 it aborts with the anomaly. -/
theorem anomaly_at_exactly_200_hits_witness :
    (∃ s2, scan_run c5_cfg 150 (initPassState 1 [] []) = .fuelOut s2) ∧
    ∃ s2, scan_run c5_cfg STOP_AFTER_CONSECUTIVE_HITS (initPassState 1 [] []) =
      .anomaly s2
        (format_id c5_cfg.template_url (1 + (STOP_AFTER_CONSECUTIVE_HITS - 1)))
        ((c5_cfg.http (format_id c5_cfg.template_url
          (1 + (STOP_AFTER_CONSECUTIVE_HITS - 1)))).finalOf) := by
  have h := anomaly_at_exactly_200_hits c5_cfg 1 [] [] (by decide)
    (fun i _ => isHit_of_resp _ _ _ (by decide) (by decide) (by decide))
  exact ⟨h.2.1 150 (by decide), h.2.2⟩

/- ----------------------------------------------------------------
   Claim C6: the stop threshold and the one-time retry extension
   ---------------------------------------------------------------- -/

/-- One iteration on a miss reduces to the stop check on the miss-updated
state. -/
theorem scan_step_miss (cfg : ScanConfig) (s : PassState)
    (hmiss : isHit (cfg.http (format_id cfg.template_url s.product_id))
      (format_id cfg.template_url s.product_id) = false) :
    scan_step cfg s = loopEnd cfg (missState s) := by
  cases hf : cfg.http (format_id cfg.template_url s.product_id) with
  | exn => simp [scan_step, hf]
  | resp status fin text =>
    rw [hf] at hmiss
    have hlnf : looks_not_found status (format_id cfg.template_url s.product_id)
        fin text = true := by
      simpa [isHit] using hmiss
    simp [scan_step, hf, hlnf]

/-- All-miss runs with the trigger unavailable stop exactly when the miss
streak reaches the threshold, with the accumulators unchanged. -/
theorem scan_run_allmiss_finish (cfg : ScanConfig)
    (hmiss : ∀ url, isHit (cfg.http url) url = false) :
    ∀ (k : Nat) (s : PassState), 0 < k →
      s.consecutive_misses + k = cfg.stop_after_consecutive_misses →
      ¬(cfg.allow_extra_retry_if_zero_found = true ∧ s.found_products = [] ∧
        s.extra_retry_used = false) →
      (∀ j < k, ∃ s2, scan_run cfg j s = .fuelOut s2) ∧
      scan_run cfg k s = .finished
        { s with product_id := s.product_id + (k - 1),
                 consecutive_misses := cfg.stop_after_consecutive_misses,
                 consecutive_hits := 0 } := by
  intro k
  induction k with
  | zero => intro s h0; exact absurd h0 (by omega)
  | succ k ih =>
    intro s _ hsum hnr
    have hstep := scan_step_miss cfg s (hmiss _)
    by_cases hk : k = 0
    · subst hk
      have htrig : (missState s).consecutive_misses ≥
          cfg.stop_after_consecutive_misses := by
        simp [missState]
        omega
      have hdone : loopEnd cfg (missState s) = .done (missState s) := by
        unfold loopEnd
        rw [if_pos htrig, if_neg (by simpa [missState] using hnr)]
      constructor
      · intro j hj
        interval_cases j
        exact ⟨s, rfl⟩
      · rw [scan_run, hstep, hdone]
        simp only [RunResult.finished.injEq, missState, PassState.mk.injEq,
          and_true, true_and]
        omega
    · have hcont : loopEnd cfg (missState s) =
          .cont (advanceState (missState s)) :=
        loopEnd_cont cfg (missState s) (by simp [missState]; omega)
      have ihh := ih (advanceState (missState s))
        (by omega) (by simp [advanceState, missState]; omega)
        (by simpa [advanceState, missState] using hnr)
      constructor
      · intro j hj
        cases j with
        | zero => exact ⟨s, rfl⟩
        | succ j2 =>
          rw [scan_run, hstep, hcont]
          exact ihh.1 j2 (by omega)
      · rw [scan_run, hstep, hcont]
        show scan_run cfg k _ = _
        rw [ihh.2]
        simp only [RunResult.finished.injEq, advanceState, missState,
          PassState.mk.injEq, and_true, true_and]
        omega

/-- All-miss runs with the retry available: the first trigger resets the
streak and consumes the extension, and the pass then runs a full second
streak before finishing. -/
theorem scan_run_allmiss_retry (cfg : ScanConfig)
    (hmiss : ∀ url, isHit (cfg.http url) url = false)
    (hallow : cfg.allow_extra_retry_if_zero_found = true)
    (hstop : 0 < cfg.stop_after_consecutive_misses) :
    ∀ (k : Nat) (s : PassState), 0 < k →
      s.consecutive_misses + k = cfg.stop_after_consecutive_misses →
      s.found_products = [] → s.extra_retry_used = false →
      (∀ j < k + cfg.stop_after_consecutive_misses,
        ∃ s2, scan_run cfg j s = .fuelOut s2) ∧
      scan_run cfg (k + cfg.stop_after_consecutive_misses) s = .finished
        { s with
            product_id := s.product_id + (k + cfg.stop_after_consecutive_misses - 1),
            consecutive_misses := cfg.stop_after_consecutive_misses,
            consecutive_hits := 0,
            extra_retry_used := true } := by
  intro k
  induction k with
  | zero => intro s h0; exact absurd h0 (by omega)
  | succ k ih =>
    intro s _ hsum hprod hused
    have hstep := scan_step_miss cfg s (hmiss _)
    by_cases hk : k = 0
    · subst hk
      have htrig : (missState s).consecutive_misses ≥
          cfg.stop_after_consecutive_misses := by
        simp [missState]
        omega
      have hretry : loopEnd cfg (missState s) =
          .cont (retryState (missState s)) := by
        unfold loopEnd
        rw [if_pos htrig, if_pos (by simp [missState, hallow, hprod, hused])]
      have hrest := scan_run_allmiss_finish cfg hmiss
        cfg.stop_after_consecutive_misses (retryState (missState s))
        hstop (by simp [retryState, missState]) (by simp [retryState, missState])
      constructor
      · intro j hj
        cases j with
        | zero => exact ⟨s, rfl⟩
        | succ j2 =>
          rw [scan_run, hstep, hretry]
          exact hrest.1 j2 (by omega)
      · have hf1 : 1 + cfg.stop_after_consecutive_misses =
            cfg.stop_after_consecutive_misses + 1 := by omega
        rw [hf1, scan_run, hstep, hretry]
        show scan_run cfg cfg.stop_after_consecutive_misses _ = _
        rw [hrest.2]
        simp only [RunResult.finished.injEq, retryState, missState,
          PassState.mk.injEq, and_true, true_and]
        omega
    · have hcont : loopEnd cfg (missState s) =
          .cont (advanceState (missState s)) :=
        loopEnd_cont cfg (missState s) (by simp [missState]; omega)
      have ihh := ih (advanceState (missState s))
        (by omega) (by simp [advanceState, missState]; omega)
        (by simpa [advanceState, missState] using hprod)
        (by simpa [advanceState, missState] using hused)
      constructor
      · intro j hj
        cases j with
        | zero => exact ⟨s, rfl⟩
        | succ j2 =>
          rw [scan_run, hstep, hcont]
          exact ihh.1 j2 (by omega)
      · have harith : k + 1 + cfg.stop_after_consecutive_misses =
            (k + cfg.stop_after_consecutive_misses) + 1 := by omega
        rw [harith, scan_run, hstep, hcont]
        show scan_run cfg (k + cfg.stop_after_consecutive_misses) _ = _
        rw [ihh.2]
        simp only [RunResult.finished.injEq, advanceState, missState,
          PassState.mk.injEq, and_true, true_and]
        omega

/-- Claim C6: on an all-miss network, with the extension unavailable
(disabled, or products already found, as the miss steps change neither) the
pass is still running before the threshold and finishes exactly when
`consecutive_misses` reaches it; with the extension enabled and no products,
the pass runs exactly two full streaks, consuming the one-time extension. -/
theorem stop_and_retry_policy (cfg : ScanConfig) (start : Nat)
    (products0 : List (Chars × Chars)) (urls0 : List Chars)
    (hstop : 0 < cfg.stop_after_consecutive_misses)
    (hmiss : ∀ url, isHit (cfg.http url) url = false) :
    (¬(cfg.allow_extra_retry_if_zero_found = true ∧ products0 = []) →
      (∀ j < cfg.stop_after_consecutive_misses,
        ∃ s2, scan_run cfg j (initPassState start products0 urls0) = .fuelOut s2) ∧
      scan_run cfg cfg.stop_after_consecutive_misses
          (initPassState start products0 urls0) =
        .finished ⟨start + (cfg.stop_after_consecutive_misses - 1),
          cfg.stop_after_consecutive_misses, 0, false, products0, urls0⟩) ∧
    (cfg.allow_extra_retry_if_zero_found = true → products0 = [] →
      (∀ j < 2 * cfg.stop_after_consecutive_misses,
        ∃ s2, scan_run cfg j (initPassState start products0 urls0) = .fuelOut s2) ∧
      scan_run cfg (2 * cfg.stop_after_consecutive_misses)
          (initPassState start products0 urls0) =
        .finished ⟨start + (2 * cfg.stop_after_consecutive_misses - 1),
          cfg.stop_after_consecutive_misses, 0, true, [], urls0⟩) := by
  constructor
  · intro hnr
    have h := scan_run_allmiss_finish cfg hmiss
      cfg.stop_after_consecutive_misses (initPassState start products0 urls0)
      hstop (by simp [initPassState]) (by simpa [initPassState] using hnr)
    exact ⟨h.1, h.2⟩
  · intro hallow hprod
    subst hprod
    have h := scan_run_allmiss_retry cfg hmiss hallow hstop
      cfg.stop_after_consecutive_misses (initPassState start [] urls0)
      hstop (by simp [initPassState]) rfl rfl
    have harith : cfg.stop_after_consecutive_misses +
        cfg.stop_after_consecutive_misses = 2 * cfg.stop_after_consecutive_misses := by
      omega
    rw [harith] at h
    exact ⟨h.1, h.2⟩

def c6_cfg_noretry : ScanConfig :=
  ⟨("https://w6.test/surl/p/\x7bid\x7d").data, 100, false, fun _ => Fetch.exn⟩

def c6_cfg_retry : ScanConfig :=
  ⟨("https://w6.test/surl/p/\x7bid\x7d").data, 100, true, fun _ => Fetch.exn⟩

/-- Witness for C6: with the default threshold 100 and an all-failure
network, the disabled-extension pass ends exactly at 100 consecutive misses
and the enabled one at 200, with the extension consumed. -/
theorem stop_and_retry_policy_witness :
    scan_run c6_cfg_noretry 100 (initPassState 1 [] []) =
      .finished ⟨100, 100, 0, false, [], []⟩ ∧
    scan_run c6_cfg_retry 200 (initPassState 1 [] []) =
      .finished ⟨200, 100, 0, true, [], []⟩ := by
  have h1 := (stop_and_retry_policy c6_cfg_noretry 1 [] [] (by decide)
    (fun url => rfl)).1 (by simp [c6_cfg_noretry])
  have h2 := (stop_and_retry_policy c6_cfg_retry 1 [] [] (by decide)
    (fun url => rfl)).2 rfl rfl
  exact ⟨h1.2, h2.2⟩

/- ----------------------------------------------------------------
   File-system lemmas for the orchestrator claims
   ---------------------------------------------------------------- -/

theorem lookup_filter_ne (files : List (Chars × List Chars)) (n1 n2 : Chars)
    (h : n1 ≠ n2) :
    (files.filter (fun p => p.1 ≠ n2)).lookup n1 = files.lookup n1 := by
  induction files with
  | nil => rfl
  | cons p rest ih =>
    obtain ⟨k, v⟩ := p
    by_cases hp : k = n2
    · rw [List.filter_cons_of_neg (by simp [hp])]
      rw [List.lookup_cons]
      have hne : (n1 == k) = false := beq_false_of_ne (by rw [hp]; exact h)
      rw [hne]
      exact ih
    · rw [List.filter_cons_of_pos (by simp [hp])]
      rw [List.lookup_cons, List.lookup_cons]
      cases hbeq : n1 == k
      · exact ih
      · rfl

theorem append_ne_of_length_ne (d a b : Chars) (h : a.length ≠ b.length) :
    d ++ a ≠ d ++ b := by
  intro he
  have := congrArg List.length he
  simp only [List.length_append] at this
  omega

theorem store_ne_influencer (domain : Chars) :
    store_filename domain ≠ influencer_filename domain :=
  append_ne_of_length_ne domain _ _ (by decide)

/-- A successful product save returns the updated store and no error. -/
theorem save_products_ok (fs : FS) (domain : Chars)
    (products : List (Chars × Chars))
    (h : fs.failWrite (store_filename domain) = false) :
    save_products_to_file fs domain products =
      ({ fs with files := (store_filename domain, renderProductLines 1 products) ::
          fs.files.filter (fun p => p.1 ≠ store_filename domain) }, false) := by
  unfold save_products_to_file FS.write
  rw [if_neg (by simp [h])]

/-- A failing product save is absorbed: the store is unchanged and only the
error flag records it. -/
theorem save_products_fail (fs : FS) (domain : Chars)
    (products : List (Chars × Chars))
    (h : fs.failWrite (store_filename domain) = true) :
    save_products_to_file fs domain products = (fs, true) := by
  unfold save_products_to_file FS.write
  rw [if_pos h]

/-- The influencer save never touches a differently named file. -/
theorem save_influencers_read_other (fss : FS) (domain n1 : Chars)
    (infl : List Chars) (h : n1 ≠ influencer_filename domain) :
    ((save_influencers_to_file fss domain infl).1).read n1 = fss.read n1 := by
  simp only [save_influencers_to_file, FS.write]
  by_cases hw : fss.failWrite (influencer_filename domain) = true
  · rw [if_pos hw]
  · rw [if_neg hw]
    show List.lookup n1 ((influencer_filename domain, _) ::
      fss.files.filter (fun p => p.1 ≠ influencer_filename domain)) =
      fss.files.lookup n1
    rw [List.lookup_cons]
    have hne : (n1 == influencer_filename domain) = false := beq_false_of_ne h
    rw [hne]
    exact lookup_filter_ne fss.files n1 (influencer_filename domain) h

/-- Reading back the file a successful write produced. -/
theorem read_after_write (fs : FS) (name : Chars) (lines : List Chars)
    (fs2 : FS) (h : fs.write name lines = some fs2) :
    fs2.read name = some lines := by
  unfold FS.write at h
  split at h
  · exact absurd h (by simp)
  · simp only [Option.some.injEq] at h
    subst h
    unfold FS.read
    show List.lookup name ((name, lines) :: _) = some lines
    rw [List.lookup_cons]
    rw [show (name == name) = true from beq_self_eq_true name]

/- ----------------------------------------------------------------
   Claim C4: the resumed workflow
   ---------------------------------------------------------------- -/

/-- Claim C4: in the resumed workflow — start id `slack_start_id` =
`last_identifier + 1` (or 1 when nothing positive is stored) — after a
finished first pass (retry extension enabled, seeded with the stored
canonical URLs), the supplementary pass anchored at the extracted id `k`
with the retry extension disabled contributes exactly when
`k > start ∧ found1 < k * 0.01` (on these integer operands, `100·found1 <
k`): otherwise the first pass's results are returned and persisted, and
when it runs and finishes, its accumulated results are returned and the
merged existing-plus-new record list is persisted to the domain store. -/
theorem resumed_scan_supplementary_pass_iff
    (fs : FS) (http : Http) (fuel1 fuel2 : Nat) (url pf tpl : Chars) (k : Nat)
    (s1 : PassState)
    (hdet : detect_platform_from_product_url url = some (pf, tpl))
    (hext : extract_product_id_from_input_url url = some k)
    (hrun1 : scan_run ⟨tpl, STOP_AFTER_CONSECUTIVE_MISSES, true, http⟩ fuel1
      (initPassState (slack_start_id fs url) []
        ((slack_existing fs url).map Prod.snd)) = .finished s1)
    (hsave : fs.failWrite (store_filename (get_domain_from_url url)) = false) :
    (¬(k > slack_start_id fs url ∧ 100 * s1.found_products.length < k) →
      ∃ inf fs2, scan_for_slack fs http fuel1 fuel2 url =
          .ok (slack_existing fs url ++ s1.found_products)
            s1.found_products inf fs2 ∧
        fs2.read (store_filename (get_domain_from_url url)) =
          some (renderProductLines 1
            (slack_existing fs url ++ s1.found_products))) ∧
    (∀ s2 : PassState,
      (k > slack_start_id fs url ∧ 100 * s1.found_products.length < k) →
      scan_run ⟨tpl, STOP_AFTER_CONSECUTIVE_MISSES, false, http⟩ fuel2
        (initPassState k s1.found_products s1.found_urls) = .finished s2 →
      ∃ inf fs2, scan_for_slack fs http fuel1 fuel2 url =
          .ok (slack_existing fs url ++ s2.found_products)
            s2.found_products inf fs2 ∧
        fs2.read (store_filename (get_domain_from_url url)) =
          some (renderProductLines 1
            (slack_existing fs url ++ s2.found_products))) := by
  have hwrite : ∀ all : List (Chars × Chars),
      ∃ fsS, fs.write (store_filename (get_domain_from_url url))
          (renderProductLines 1 all) = some fsS ∧
        save_products_to_file fs (get_domain_from_url url) all = (fsS, false) := by
    intro all
    unfold save_products_to_file
    cases hw : fs.write (store_filename (get_domain_from_url url))
        (renderProductLines 1 all) with
    | none =>
      exfalso
      unfold FS.write at hw
      rw [if_neg (by simp [hsave])] at hw
      exact absurd hw (by simp)
    | some fsS => exact ⟨fsS, rfl, rfl⟩
  constructor
  · intro hc
    obtain ⟨fsS, hw, hsp⟩ :=
      hwrite (slack_existing fs url ++ s1.found_products)
    refine ⟨(save_influencers_to_file fsS (get_domain_from_url url)
        (extract_influencer_names
          ((slack_existing fs url ++ s1.found_products).map Prod.fst))).2,
      (save_influencers_to_file fsS (get_domain_from_url url)
        (extract_influencer_names
          ((slack_existing fs url ++ s1.found_products).map Prod.fst))).1,
      ?_, ?_⟩
    · simp only [scan_for_slack, hdet, hext, hrun1]
      rw [if_neg hc]
      show SlackOutcome.ok _ _ _ _ = SlackOutcome.ok _ _ _ _
      rw [hsp]
    · rw [save_influencers_read_other _ _ _ _ (store_ne_influencer _)]
      exact read_after_write fs _ _ fsS hw
  · intro s2 hc hrun2
    obtain ⟨fsS, hw, hsp⟩ :=
      hwrite (slack_existing fs url ++ s2.found_products)
    refine ⟨(save_influencers_to_file fsS (get_domain_from_url url)
        (extract_influencer_names
          ((slack_existing fs url ++ s2.found_products).map Prod.fst))).2,
      (save_influencers_to_file fsS (get_domain_from_url url)
        (extract_influencer_names
          ((slack_existing fs url ++ s2.found_products).map Prod.fst))).1,
      ?_, ?_⟩
    · simp only [scan_for_slack, hdet, hext, hrun1]
      rw [if_pos hc, hrun2]
      show SlackOutcome.ok _ _ _ _ = SlackOutcome.ok _ _ _ _
      rw [hsp]
    · rw [save_influencers_read_other _ _ _ _ (store_ne_influencer _)]
      exact read_after_write fs _ _ fsS hw

def c4_url : Chars := ("https://x.test/surl/p/5").data

def c4_tpl : Chars := ("https://x.test/surl/p/\x7bid\x7d").data

def c4_fs : FS := ⟨[], fun _ => false⟩

def c4_http : Http := fun _ => Fetch.exn

def c4_s1 : PassState := ⟨200, 100, 0, true, [], []⟩

def c4_s2 : PassState := ⟨104, 100, 0, false, [], []⟩

/-- Witness for C4: an empty store (start id 1), an all-failure network and
input id 5: the first pass finds nothing, `5 > 1 ∧ 0 < 5·0.01⁻¹`-scaled
condition holds, the supplementary pass runs from 5 with the extension
disabled, and the (empty) merged list is persisted. -/
theorem resumed_scan_supplementary_pass_iff_witness :
    ∃ inf fs2, scan_for_slack c4_fs c4_http 200 100 c4_url =
        .ok (slack_existing c4_fs c4_url ++ c4_s2.found_products)
          c4_s2.found_products inf fs2 ∧
      fs2.read (store_filename (get_domain_from_url c4_url)) =
        some (renderProductLines 1
          (slack_existing c4_fs c4_url ++ c4_s2.found_products)) :=
  (resumed_scan_supplementary_pass_iff c4_fs c4_http 200 100 c4_url
    (("cafe24").data) c4_tpl 5 c4_s1 (by decide) (by decide) (by decide)
    (by decide)).2 c4_s2 (by decide) (by decide)

/- ----------------------------------------------------------------
   Claim C3: a failing store save at the end of a resumable scan
   ---------------------------------------------------------------- -/

/-- The returned tuple of a normal `scan_for_slack` return. -/
def SlackOutcome.okParts :
    SlackOutcome → Option (List (Chars × Chars) × List (Chars × Chars) × Chars)
  | .ok a n i _ => some (a, n, i)
  | _ => none

/-- Read a file from the file system a normal return carries. -/
def SlackOutcome.readStore : SlackOutcome → Chars → Option (List Chars)
  | .ok _ _ _ fs2, nm => fs2.read nm
  | _, _ => none

def c3_url : Chars := ("https://x.test/surl/p/5").data

def c3_hit_url : Chars := ("https://x.test/surl/p/1").data

def c3_http : Http := fun u =>
  if u = c3_hit_url then Fetch.resp 200 (("https://x.test/p1").data) existsBody
  else Fetch.exn

def c3_fs_fail : FS := ⟨[], fun n => n == ("x.test.txt").data⟩

def c3_fs_ok : FS := ⟨[], fun _ => false⟩

/-- Claim C3 counterexample: with the domain-store write failing with an
I/O error at the end of the resumable scan, `scan_for_slack` still returns
the normal `.ok` tuple, identical to the tuple returned when every write
succeeds — the caller gets no distinguishable error outcome — and the store
file is silently left unwritten. -/
theorem save_failure_silent_cx :
    (scan_for_slack c3_fs_fail c3_http 101 0 c3_url).okParts =
      (scan_for_slack c3_fs_ok c3_http 101 0 c3_url).okParts ∧
    (scan_for_slack c3_fs_fail c3_http 101 0 c3_url).okParts ≠ none ∧
    (scan_for_slack c3_fs_fail c3_http 101 0 c3_url).readStore
      (("x.test.txt").data) = none ∧
    (scan_for_slack c3_fs_ok c3_http 101 0 c3_url).readStore
      (("x.test.txt").data) ≠ none := by
  exact ⟨rfl, by decide, rfl, by decide⟩

/-- Claim C3 (amended): a Discovery Store save failure at the end of a
resumable scan is NOT surfaced to the caller: it is caught inside the save
(only a console message is printed), the scan still returns the normal
`.ok` outcome carrying the in-memory merged results, and the domain store
file is left unchanged, indistinguishable (in the returned value) from a
successful save. -/
theorem save_failure_absorbed_amended
    (fs : FS) (http : Http) (fuel1 fuel2 : Nat) (url pf tpl : Chars) (k : Nat)
    (s1 : PassState)
    (hdet : detect_platform_from_product_url url = some (pf, tpl))
    (hext : extract_product_id_from_input_url url = some k)
    (hrun1 : scan_run ⟨tpl, STOP_AFTER_CONSECUTIVE_MISSES, true, http⟩ fuel1
      (initPassState (slack_start_id fs url) []
        ((slack_existing fs url).map Prod.snd)) = .finished s1)
    (hc : ¬(k > slack_start_id fs url ∧ 100 * s1.found_products.length < k))
    (hfail : fs.failWrite (store_filename (get_domain_from_url url)) = true) :
    ∃ inf fs2, scan_for_slack fs http fuel1 fuel2 url =
        .ok (slack_existing fs url ++ s1.found_products)
          s1.found_products inf fs2 ∧
      fs2.read (store_filename (get_domain_from_url url)) =
        fs.read (store_filename (get_domain_from_url url)) := by
  have hsp := save_products_fail fs (get_domain_from_url url)
    (slack_existing fs url ++ s1.found_products) hfail
  refine ⟨(save_influencers_to_file fs (get_domain_from_url url)
      (extract_influencer_names
        ((slack_existing fs url ++ s1.found_products).map Prod.fst))).2,
    (save_influencers_to_file fs (get_domain_from_url url)
      (extract_influencer_names
        ((slack_existing fs url ++ s1.found_products).map Prod.fst))).1,
    ?_, ?_⟩
  · simp only [scan_for_slack, hdet, hext, hrun1]
    rw [if_neg hc]
    show SlackOutcome.ok _ _ _ _ = SlackOutcome.ok _ _ _ _
    rw [hsp]
  · rw [save_influencers_read_other _ _ _ _ (store_ne_influencer _)]

def c3_s1 : PassState :=
  ⟨101, 100, 0, false,
   [(("(제품명 추출 실패)").data, ("https://x.test/p1").data)],
   [("https://x.test/p1").data]⟩

/-- Witness for the amended C3 theorem: one product found by the first
pass, the store write failing; the results are still returned and the store
is unchanged. -/
theorem save_failure_absorbed_amended_witness :
    ∃ inf fs2, scan_for_slack c3_fs_fail c3_http 101 0 c3_url =
        .ok (slack_existing c3_fs_fail c3_url ++ c3_s1.found_products)
          c3_s1.found_products inf fs2 ∧
      fs2.read (store_filename (get_domain_from_url c3_url)) =
        c3_fs_fail.read (store_filename (get_domain_from_url c3_url)) :=
  save_failure_absorbed_amended c3_fs_fail c3_http 101 0 c3_url
    (("cafe24").data) c4_tpl 5 c3_s1 (by decide) (by decide) (by decide)
    (by decide) (by decide)


/- ----------------------------------------------------------------
   Claim C8: idempotence of the template resolver
   ---------------------------------------------------------------- -/

/-- The query/fragment tail split performed by `urlparse` after the netloc:
path up to the first relevant delimiter, then query, then fragment. -/
def splitPQF (r : Chars) : Chars × Chars × Chars :=
  let fragSplit :=
    match splitFirst '#' r with
    | some (pre, post) => (pre, post)
    | none => (r, [])
  let querySplit :=
    match splitFirst '?' fragSplit.1 with
    | some (pre, post) => (pre, post)
    | none => (fragSplit.1, [])
  (querySplit.1, querySplit.2, fragSplit.2)

theorem swhs_http (X : Chars) :
    startsWithHttpScheme (("http://").data ++ X) = true := rfl

theorem swhs_https (X : Chars) :
    startsWithHttpScheme (("https://").data ++ X) = true := rfl

/-- `urlparse` on a lowercase `http` scheme splits the tail into the netloc
(up to the first delimiter) and the query/fragment parts. -/
theorem urlparse_http (X : Chars) :
    urlparse (("http://").data ++ X) =
      ⟨("http").data, X.takeWhile notNetlocDelim,
       (splitPQF (X.dropWhile notNetlocDelim)).1,
       (splitPQF (X.dropWhile notNetlocDelim)).2.1,
       (splitPQF (X.dropWhile notNetlocDelim)).2.2⟩ := rfl

theorem urlparse_https (X : Chars) :
    urlparse (("https://").data ++ X) =
      ⟨("https").data, X.takeWhile notNetlocDelim,
       (splitPQF (X.dropWhile notNetlocDelim)).1,
       (splitPQF (X.dropWhile notNetlocDelim)).2.1,
       (splitPQF (X.dropWhile notNetlocDelim)).2.2⟩ := rfl

theorem splitFirst_append_cons (c : Char) :
    ∀ (A B : Chars), (∀ a ∈ A, a ≠ c) →
      splitFirst c (A ++ c :: B) = some (A, B) := by
  intro A
  induction A with
  | nil =>
    intro B _
    show splitFirst c (c :: B) = some ([], B)
    simp [splitFirst]
  | cons a A2 ih =>
    intro B hA
    have hac : a ≠ c := hA a (by simp)
    have hi := ih B (fun x hx => hA x (by simp [hx]))
    show (if a = c then some (([] : Chars), A2 ++ c :: B)
          else
            match splitFirst c (A2 ++ c :: B) with
            | some (pre, post) => some (a :: pre, post)
            | none => none) = some (a :: A2, B)
    rw [if_neg hac, hi]

theorem splitFirst_none (c : Char) :
    ∀ (l : Chars), (∀ a ∈ l, a ≠ c) → splitFirst c l = none := by
  intro l
  induction l with
  | nil => intro _; rfl
  | cons a l2 ih =>
    intro h
    have hac : a ≠ c := h a (by simp)
    have hi := ih (fun x hx => h x (by simp [hx]))
    show (if a = c then some (([] : Chars), l2)
          else
            match splitFirst c l2 with
            | some (pre, post) => some (a :: pre, post)
            | none => none) = none
    rw [if_neg hac, hi]

theorem takeWhile_append_all (p : Char → Bool) :
    ∀ (n r : Chars), n.all p = true →
      (∀ c, r.head? = some c → p c = false) →
      (n ++ r).takeWhile p = n ∧ (n ++ r).dropWhile p = r := by
  intro n
  induction n with
  | nil =>
    intro r _ hr
    cases r with
    | nil => exact ⟨rfl, rfl⟩
    | cons c r2 =>
      have hc := hr c rfl
      constructor
      · rw [List.nil_append, List.takeWhile_cons_of_neg (by simp [hc])]
      · rw [List.nil_append, List.dropWhile_cons_of_neg (by simp [hc])]
  | cons a n2 ih =>
    intro r hall hr
    rw [List.all_cons, Bool.and_eq_true] at hall
    obtain ⟨ha, hall2⟩ := hall
    obtain ⟨ih1, ih2⟩ := ih r hall2 hr
    constructor
    · rw [List.cons_append, List.takeWhile_cons_of_pos (by simp [ha]), ih1]
    · rw [List.cons_append, List.dropWhile_cons_of_pos (by simp [ha])]
      exact ih2

theorem takeWhile_all_eq (p : Char → Bool) :
    ∀ (l : Chars), l.all p = true →
      l.takeWhile p = l ∧ l.dropWhile p = [] := by
  intro l
  induction l with
  | nil => intro _; exact ⟨rfl, rfl⟩
  | cons a l2 ih =>
    intro hall
    rw [List.all_cons, Bool.and_eq_true] at hall
    obtain ⟨ha, hall2⟩ := hall
    obtain ⟨ih1, ih2⟩ := ih hall2
    constructor
    · rw [List.takeWhile_cons_of_pos (by simp [ha]), ih1]
    · rw [List.dropWhile_cons_of_pos (by simp [ha])]
      exact ih2

theorem isPrefixOf_append_self :
    ∀ (l t : Chars), l.isPrefixOf (l ++ t) = true := by
  intro l t
  induction l with
  | nil => cases t <;> rfl
  | cons c l2 ih =>
    show ((c == c) && l2.isPrefixOf (l2 ++ t)) = true
    rw [beq_self_eq_true, ih, Bool.and_self]

theorem containsSub_self_append (lit t : Chars) (hne : lit ≠ []) :
    containsSub (lit ++ t) lit = true := by
  cases lit with
  | nil => exact absurd rfl hne
  | cons c l2 =>
    show ((c :: l2).isPrefixOf ((c :: l2) ++ t) || containsSub (l2 ++ t) (c :: l2)) = true
    rw [isPrefixOf_append_self, Bool.true_or]

theorem replaceGo_brace_append (new : Chars) :
    ∀ (A B : Chars), (∀ a ∈ A, a ≠ '\x7b') →
      replaceGo (("\x7bid\x7d").data) new 0 (A ++ B) =
        A ++ replaceGo (("\x7bid\x7d").data) new 0 B := by
  intro A
  induction A with
  | nil => intro B _; rfl
  | cons a A2 ih =>
    intro B hA
    have hab : ('\x7b' == a) = false := by
      rw [beq_eq_false_iff_ne]
      intro h
      exact hA a (by simp) h.symm
    have hpre : (("\x7bid\x7d").data).isPrefixOf (a :: (A2 ++ B)) = false := by
      show (('\x7b' == a) && (("id\x7d").data).isPrefixOf (A2 ++ B)) = false
      rw [hab, Bool.false_and]
    show (if (("\x7bid\x7d").data).isPrefixOf (a :: (A2 ++ B)) then
            new ++ replaceGo (("\x7bid\x7d").data) new
              ((("\x7bid\x7d").data).length - 1) (A2 ++ B)
          else a :: replaceGo (("\x7bid\x7d").data) new 0 (A2 ++ B)) =
        (a :: A2) ++ replaceGo (("\x7bid\x7d").data) new 0 B
    rw [hpre]
    show a :: replaceGo (("\x7bid\x7d").data) new 0 (A2 ++ B) = _
    rw [ih B (fun x hx => hA x (by simp [hx]))]
    rfl

theorem replaceGo_brace_id (new : Chars) :
    replaceGo (("\x7bid\x7d").data) new 0 (("\x7bid\x7d").data) = new := by
  have h : replaceGo (("\x7bid\x7d").data) new 0 (("\x7bid\x7d").data) =
      new ++ ([] : Chars) := rfl
  rw [h, List.append_nil]

theorem format_id_append (base tailPart : Chars) (id : Nat)
    (hb : ∀ a ∈ base, a ≠ '\x7b') :
    format_id (base ++ tailPart) id = base ++ format_id tailPart id := by
  unfold format_id replaceStr
  exact replaceGo_brace_append (natRepr id) base tailPart hb

theorem format_id_cafe24_tail (id : Nat) :
    format_id (("/surl/p/\x7bid\x7d").data) id = ("/surl/p/").data ++ natRepr id := by
  unfold format_id replaceStr
  rw [show (("/surl/p/\x7bid\x7d").data) = ("/surl/p/").data ++ ("\x7bid\x7d").data from rfl]
  rw [replaceGo_brace_append (natRepr id) (("/surl/p/").data) (("\x7bid\x7d").data)
    (by decide)]
  rw [replaceGo_brace_id]

theorem format_id_imweb_tail (id : Nat) :
    format_id (("/Product/?idx=\x7bid\x7d").data) id =
      ("/Product/?idx=").data ++ natRepr id := by
  unfold format_id replaceStr
  rw [show (("/Product/?idx=\x7bid\x7d").data) =
      ("/Product/?idx=").data ++ ("\x7bid\x7d").data from rfl]
  rw [replaceGo_brace_append (natRepr id) (("/Product/?idx=").data) (("\x7bid\x7d").data)
    (by decide)]
  rw [replaceGo_brace_id]

theorem getLast_append_right :
    ∀ (A B : Chars), B ≠ [] → (A ++ B).getLast? = B.getLast? := by
  intro A
  induction A with
  | nil => intro B _; rfl
  | cons a A2 ih =>
    intro B hB
    cases hA2B : A2 ++ B with
    | nil => exact absurd (List.append_eq_nil.mp hA2B).2 hB
    | cons x xs =>
      have h1 : (a :: A2) ++ B = a :: x :: xs := by rw [List.cons_append, hA2B]
      rw [h1, List.getLast?_cons_cons, ← hA2B]
      exact ih B hB

/-- `pyStrip` leaves a string alone when its first and last characters are
not whitespace. -/
theorem pyStrip_noop (a : Char) (t : Chars) (ha : a.isWhitespace = false)
    (hlast : ∀ c, (a :: t).getLast? = some c → c.isWhitespace = false) :
    pyStrip (a :: t) = a :: t := by
  unfold pyStrip
  rw [List.dropWhile_cons_of_neg (by simp [ha])]
  cases hrev : (a :: t).reverse with
  | nil => exact absurd hrev (by simp)
  | cons b rb =>
    have hb : (a :: t).getLast? = some b := by
      rw [← List.head?_reverse, hrev]
      rfl
    have hbw := hlast b hb
    rw [List.dropWhile_cons_of_neg (by simp [hbw]), ← hrev,
      List.reverse_reverse]

theorem isDigit_ne_of (c x : Char) (hx : x.isDigit = false) (h : c.isDigit = true) :
    c ≠ x := by
  intro he
  subst he
  rw [h] at hx
  exact absurd hx (by decide)

theorem ensure_scheme_noop (s : Chars) (h1 : startsWithHttpScheme s = true)
    (h2 : pyStrip s = s) : ensure_scheme s = s := by
  show (if startsWithHttpScheme (pyStrip s) then pyStrip s
        else ("https://").data ++ pyStrip s) = s
  rw [h2, if_pos h1]

theorem urlunparse3_base (sch n : Chars) (hs : sch ≠ []) (hn : n ≠ []) :
    urlunparse3 sch n [] = sch ++ ':' :: '/' :: '/' :: n := by
  unfold urlunparse3
  rw [if_pos (Or.inl hn)]
  rw [if_neg (show ¬(([] : Chars) ≠ [] ∧ ([] : Chars).take 1 ≠ ("/").data)
    from fun h => h.1 rfl)]
  rw [if_pos hs]
  simp

theorem urlunparse3_slash (sch n path : Chars) (hs : sch ≠ []) (hn : n ≠ [])
    (hp : path = [] ∨ ∃ p2, path = '/' :: p2) :
    urlunparse3 sch n path = sch ++ ':' :: '/' :: '/' :: (n ++ path) := by
  unfold urlunparse3
  rw [if_pos (Or.inl hn)]
  rw [if_neg (show ¬(path ≠ [] ∧ path.take 1 ≠ ("/").data) from by
    intro h
    rcases hp with h0 | ⟨p2, h0⟩
    · exact h.1 h0
    · exact h.2 (by rw [h0]; rfl))]
  rw [if_pos hs]
  simp

theorem splitPQF_no_qf (r : Chars) (h : ∀ a ∈ r, a ≠ '#' ∧ a ≠ '?') :
    splitPQF r = (r, [], []) := by
  unfold splitPQF
  simp only [splitFirst_none '#' r (fun a ha => (h a ha).1),
    splitFirst_none '?' r (fun a ha => (h a ha).2)]

theorem splitPQF_query (A B : Chars) (hA : ∀ a ∈ A, a ≠ '#' ∧ a ≠ '?')
    (hB : ∀ a ∈ B, a ≠ '#') :
    splitPQF (A ++ '?' :: B) = (A, B, []) := by
  unfold splitPQF
  simp only [splitFirst_none '#' (A ++ '?' :: B) (by
      intro a ha
      rw [List.mem_append] at ha
      rcases ha with ha | ha
      · exact (hA a ha).1
      · rw [List.mem_cons] at ha
        rcases ha with ha | ha
        · subst ha; decide
        · exact hB a ha),
    splitFirst_append_cons '?' A B (fun a ha => (hA a ha).2)]

/-- `urlparse` of a constructed lowercase scheme URL with a clean netloc. -/
theorem urlparse_built (sch n r : Chars)
    (hsch : sch = ("http").data ∨ sch = ("https").data)
    (hn : n.all notNetlocDelim = true)
    (hr : ∀ c, r.head? = some c → notNetlocDelim c = false) :
    urlparse (sch ++ ':' :: '/' :: '/' :: (n ++ r)) =
      ⟨sch, n, (splitPQF r).1, (splitPQF r).2.1, (splitPQF r).2.2⟩ := by
  obtain ⟨htw, hdw⟩ := takeWhile_append_all notNetlocDelim n r hn hr
  rcases hsch with h | h <;> subst h
  · rw [show ("http").data ++ ':' :: '/' :: '/' :: (n ++ r) =
        ("http://").data ++ (n ++ r) from rfl]
    rw [urlparse_http, htw, hdw]
  · rw [show ("https").data ++ ':' :: '/' :: '/' :: (n ++ r) =
        ("https://").data ++ (n ++ r) from rfl]
    rw [urlparse_https, htw, hdw]

/-- One admissible host character: not a netloc delimiter and not the
placeholder-opening brace. -/
def hostOkC (c : Char) : Bool :=
  notNetlocDelim c && !(c = '\x7b')

/-- A well-formed resolved host: nonempty and made of admissible characters. -/
def hostOk (n : Chars) : Prop :=
  n ≠ [] ∧ n.all hostOkC = true

theorem hostOk_notDelim (n : Chars) (h : hostOk n) :
    n.all notNetlocDelim = true := by
  rw [List.all_eq_true]
  intro c hc
  have h2 := h.2
  rw [List.all_eq_true] at h2
  have h3 := h2 c hc
  rw [hostOkC, Bool.and_eq_true] at h3
  exact h3.1

theorem hostOk_no_brace (n : Chars) (h : hostOk n) :
    ∀ a ∈ n, a ≠ '\x7b' := by
  intro a ha
  have h2 := h.2
  rw [List.all_eq_true] at h2
  have h3 := h2 a ha
  rw [hostOkC, Bool.and_eq_true] at h3
  simpa using h3.2

theorem all_ne_of_decide (lit : Chars) (x : Char)
    (hd : lit.all (fun c => !(c = x)) = true) : ∀ a ∈ lit, a ≠ x := by
  rw [List.all_eq_true] at hd
  intro a ha
  simpa using hd a ha

theorem append_ne_of (A B : Chars) (x : Char)
    (hA : ∀ a ∈ A, a ≠ x) (hB : ∀ a ∈ B, a ≠ x) : ∀ a ∈ A ++ B, a ≠ x := by
  intro a ha
  rw [List.mem_append] at ha
  rcases ha with ha | ha
  · exact hA a ha
  · exact hB a ha

theorem digits_ne_of (ds : Chars) (x : Char) (hx : x.isDigit = false)
    (hall : ds.all Char.isDigit = true) : ∀ a ∈ ds, a ≠ x := by
  rw [List.all_eq_true] at hall
  intro a ha
  exact isDigit_ne_of a x hx (hall a ha)

theorem pyStrip_noop_url (sch n r : Chars)
    (hsch : sch = ("http").data ∨ sch = ("https").data)
    (hrne : r ≠ [])
    (hlast : ∀ c, r.getLast? = some c → c.isWhitespace = false) :
    pyStrip (sch ++ ':' :: '/' :: '/' :: (n ++ r)) =
      sch ++ ':' :: '/' :: '/' :: (n ++ r) := by
  have hL : (sch ++ ':' :: '/' :: '/' :: (n ++ r)).getLast? = r.getLast? := by
    rw [show sch ++ ':' :: '/' :: '/' :: (n ++ r) =
        (sch ++ ([':', '/', '/'] ++ n)) ++ r by simp]
    exact getLast_append_right _ r hrne
  rcases hsch with h | h <;> subst h
  · exact pyStrip_noop 'h' _ (by decide)
      (fun c hc => hlast c (by rw [← hL]; exact hc))
  · exact pyStrip_noop 'h' _ (by decide)
      (fun c hc => hlast c (by rw [← hL]; exact hc))

theorem natRepr_all (id : Nat) : (natRepr id).all Char.isDigit = true := by
  rw [List.all_eq_true]
  intro c hc
  exact natRepr_all_digit id c hc

theorem natRepr_last_not_ws (id : Nat) :
    ∀ c, (natRepr id).getLast? = some c → c.isWhitespace = false := by
  intro c hc
  rcases List.eq_nil_or_concat (natRepr id) with h0 | ⟨ds2, d, hd⟩
  · exact absurd h0 (natRepr_ne_nil id)
  · rw [List.concat_eq_append] at hd
    rw [hd, getLast_append_right ds2 [d] (by simp)] at hc
    have hcd : c = d := by
      have := hc
      simp at this
      exact this.symm
    subst hcd
    exact isDigit_not_ws c (natRepr_all_digit id c (by rw [hd]; simp))

theorem searchSurlPId_cons (c : Char) (rest : Chars) :
    searchSurlPId (c :: rest) =
      if (("/surl/p/").data).isPrefixOf (c :: rest) then
        let after := (c :: rest).drop 8
        let ds := after.takeWhile Char.isDigit
        if ds ≠ [] then some (natOfDigits ds) else searchSurlPId rest
      else searchSurlPId rest := rfl

theorem searchSurlPId_built (ds : Chars) (hall : ds.all Char.isDigit = true)
    (hne : ds ≠ []) :
    searchSurlPId ((("/surl/p/").data) ++ ds) = some (natOfDigits ds) := by
  obtain ⟨htw, _⟩ := takeWhile_all_eq Char.isDigit ds hall
  rw [show (("/surl/p/").data) ++ ds = '/' :: ((("surl/p/").data) ++ ds) from rfl]
  rw [searchSurlPId_cons]
  rw [if_pos (show (("/surl/p/").data).isPrefixOf
      ('/' :: ((("surl/p/").data) ++ ds)) = true
    from isPrefixOf_append_self (("/surl/p/").data) ds)]
  have hdrop : (('/' : Char) :: ((("surl/p/").data) ++ ds)).drop 8 = ds :=
    List.drop_left (("/surl/p/").data) ds
  simp only [hdrop, htw]
  rw [if_pos hne]

theorem ciLitAt_idx_self (ds : Chars) :
    ciLitAt ((("idx").data) ++ (("=").data)) ((("idx=").data) ++ ds) = true := rfl

theorem paramNumAt_idx_built (ds : Chars) (hall : ds.all Char.isDigit = true)
    (hne : ds ≠ []) :
    paramNumAt (("idx").data) ((("idx=").data) ++ ds) = true := by
  obtain ⟨htw, hdw⟩ := takeWhile_all_eq Char.isDigit ds hall
  unfold paramNumAt
  rw [ciLitAt_idx_self, Bool.true_and]
  have hdrop : ((("idx=").data) ++ ds).drop ((("idx").data).length + 1) = ds := by
    rw [show (("idx").data).length + 1 = (("idx=").data).length from rfl]
    exact List.drop_left (("idx=").data) ds
  simp only [hdrop, htw, hdw]
  rw [decide_eq_true_eq]
  exact ⟨hne, Or.inl trivial⟩

theorem hasParamNum_idx_built (ds : Chars) (hall : ds.all Char.isDigit = true)
    (hne : ds ≠ []) :
    hasParamNum (("idx").data) ((("idx=").data) ++ ds) = true := by
  unfold hasParamNum
  rw [paramNumAt_idx_built ds hall hne, Bool.true_or]

/-- Resolving the Cafe24 canonical template instantiated at any id yields
the Cafe24 platform and the same template again. -/
theorem detect_built_cafe24 (sch n : Chars) (id : Nat)
    (hsch : sch = ("http").data ∨ sch = ("https").data) (hn : hostOk n) :
    detect_platform_from_product_url
        (sch ++ ':' :: '/' :: '/' :: (n ++ ((("/surl/p/").data) ++ natRepr id))) =
      some ((("cafe24").data),
        (sch ++ ':' :: '/' :: '/' :: n) ++ (("/surl/p/\x7bid\x7d").data)) := by
  have hall := natRepr_all id
  have hne := natRepr_ne_nil id
  have hrne : (("/surl/p/").data) ++ natRepr id ≠ [] := by simp
  have hrlast : ∀ c, ((("/surl/p/").data) ++ natRepr id).getLast? = some c →
      c.isWhitespace = false := by
    intro c hc
    rw [getLast_append_right _ _ hne] at hc
    exact natRepr_last_not_ws id c hc
  have hstrip := pyStrip_noop_url sch n _ hsch hrne hrlast
  have hswhs : startsWithHttpScheme
      (sch ++ ':' :: '/' :: '/' :: (n ++ ((("/surl/p/").data) ++ natRepr id))) = true := by
    rcases hsch with h | h <;> subst h
    · exact swhs_http _
    · exact swhs_https _
  have hens := ensure_scheme_noop _ hswhs hstrip
  have hnall := hostOk_notDelim n hn
  have hrhead : ∀ c, ((("/surl/p/").data) ++ natRepr id).head? = some c →
      notNetlocDelim c = false := by
    intro c hc
    rw [show ((("/surl/p/").data) ++ natRepr id).head? = some '/' from rfl] at hc
    injection hc with h2
    rw [← h2]
    decide
  have hsplit : splitPQF ((("/surl/p/").data) ++ natRepr id) =
      ((("/surl/p/").data) ++ natRepr id, [], []) :=
    splitPQF_no_qf _ (by
      intro a ha
      rw [List.mem_append] at ha
      rcases ha with ha | ha
      · exact ⟨all_ne_of_decide _ '#' (by decide) a ha,
          all_ne_of_decide _ '?' (by decide) a ha⟩
      · exact ⟨digits_ne_of _ '#' (by decide) hall a ha,
          digits_ne_of _ '?' (by decide) hall a ha⟩)
  have hparse : urlparse
      (sch ++ ':' :: '/' :: '/' :: (n ++ ((("/surl/p/").data) ++ natRepr id))) =
      ⟨sch, n, (("/surl/p/").data) ++ natRepr id, [], []⟩ := by
    rw [urlparse_built sch n _ hsch hnall hrhead, hsplit]
  have hschne : sch ≠ [] := by rcases hsch with h | h <;> (subst h; simp)
  have hsq : strip_query_fragment
      (sch ++ ':' :: '/' :: '/' :: (n ++ ((("/surl/p/").data) ++ natRepr id))) =
      sch ++ ':' :: '/' :: '/' :: (n ++ ((("/surl/p/").data) ++ natRepr id)) := by
    unfold strip_query_fragment
    rw [hens, hparse]
    exact urlunparse3_slash sch n _ hschne hn.1
      (Or.inr ⟨(("surl/p/").data) ++ natRepr id, rfl⟩)
  have hnh : normalize_home
      (sch ++ ':' :: '/' :: '/' :: (n ++ ((("/surl/p/").data) ++ natRepr id))) =
      sch ++ ':' :: '/' :: '/' :: n := by
    unfold normalize_home
    rw [hens, hparse]
    exact urlunparse3_base sch n hschne hn.1
  have hc1 : containsSub ((("/surl/p/").data) ++ natRepr id) (("/surl/p/").data) = true :=
    containsSub_self_append _ _ (by simp)
  have hc2 : hasSurlPNum ((("/surl/p/").data) ++ natRepr id) = true := by
    unfold hasSurlPNum
    rw [searchSurlPId_built _ hall hne]
    rfl
  simp only [detect_platform_from_product_url, hens, hsq, hparse, hnh]
  rw [if_pos (show
      containsSub ((("/surl/p/").data) ++ natRepr id) (("/surl/p/").data) = true ∧
        hasSurlPNum ((("/surl/p/").data) ++ natRepr id) = true from ⟨hc1, hc2⟩)]

/-- Resolving the Imweb canonical template instantiated at any id yields the
Imweb platform and the same template again. -/
theorem detect_built_imweb (sch n : Chars) (id : Nat)
    (hsch : sch = ("http").data ∨ sch = ("https").data) (hn : hostOk n) :
    detect_platform_from_product_url
        (sch ++ ':' :: '/' :: '/' :: (n ++ ((("/Product/?idx=").data) ++ natRepr id))) =
      some ((("imweb").data),
        (sch ++ ':' :: '/' :: '/' :: n) ++ (("/Product/?idx=\x7bid\x7d").data)) := by
  have hall := natRepr_all id
  have hne := natRepr_ne_nil id
  have hrne : (("/Product/?idx=").data) ++ natRepr id ≠ [] := by simp
  have hrlast : ∀ c, ((("/Product/?idx=").data) ++ natRepr id).getLast? = some c →
      c.isWhitespace = false := by
    intro c hc
    rw [getLast_append_right _ _ hne] at hc
    exact natRepr_last_not_ws id c hc
  have hstrip := pyStrip_noop_url sch n _ hsch hrne hrlast
  have hswhs : startsWithHttpScheme
      (sch ++ ':' :: '/' :: '/' :: (n ++ ((("/Product/?idx=").data) ++ natRepr id))) = true := by
    rcases hsch with h | h <;> subst h
    · exact swhs_http _
    · exact swhs_https _
  have hens := ensure_scheme_noop _ hswhs hstrip
  have hnall := hostOk_notDelim n hn
  have hrhead : ∀ c, ((("/Product/?idx=").data) ++ natRepr id).head? = some c →
      notNetlocDelim c = false := by
    intro c hc
    rw [show ((("/Product/?idx=").data) ++ natRepr id).head? = some '/' from rfl] at hc
    injection hc with h2
    rw [← h2]
    decide
  have hsplit : splitPQF ((("/Product/?idx=").data) ++ natRepr id) =
      ((("/Product/").data), (("idx=").data) ++ natRepr id, []) := by
    rw [show (("/Product/?idx=").data) ++ natRepr id =
        (("/Product/").data) ++ '?' :: ((("idx=").data) ++ natRepr id) from rfl]
    exact splitPQF_query _ _ (by decide)
      (append_ne_of _ _ '#' (all_ne_of_decide _ '#' (by decide))
        (digits_ne_of _ '#' (by decide) hall))
  have hparse : urlparse
      (sch ++ ':' :: '/' :: '/' :: (n ++ ((("/Product/?idx=").data) ++ natRepr id))) =
      ⟨sch, n, (("/Product/").data), (("idx=").data) ++ natRepr id, []⟩ := by
    rw [urlparse_built sch n _ hsch hnall hrhead, hsplit]
  have hschne : sch ≠ [] := by rcases hsch with h | h <;> (subst h; simp)
  have hsq : strip_query_fragment
      (sch ++ ':' :: '/' :: '/' :: (n ++ ((("/Product/?idx=").data) ++ natRepr id))) =
      sch ++ ':' :: '/' :: '/' :: (n ++ (("/Product/").data)) := by
    unfold strip_query_fragment
    rw [hens, hparse]
    exact urlunparse3_slash sch n _ hschne hn.1
      (Or.inr ⟨("Product/").data, rfl⟩)
  have hrne2 : (("/Product/").data) ≠ ([] : Chars) := by simp
  have hrlast2 : ∀ c, ((("/Product/").data) : Chars).getLast? = some c →
      c.isWhitespace = false := by
    intro c hc
    rw [show ((("/Product/").data) : Chars).getLast? = some '/' from rfl] at hc
    injection hc with h2
    rw [← h2]
    decide
  have hstrip2 := pyStrip_noop_url sch n _ hsch hrne2 hrlast2
  have hswhs2 : startsWithHttpScheme
      (sch ++ ':' :: '/' :: '/' :: (n ++ (("/Product/").data))) = true := by
    rcases hsch with h | h <;> subst h
    · exact swhs_http _
    · exact swhs_https _
  have hens2 := ensure_scheme_noop _ hswhs2 hstrip2
  have hrhead2 : ∀ c, ((("/Product/").data) : Chars).head? = some c →
      notNetlocDelim c = false := by
    intro c hc
    rw [show ((("/Product/").data) : Chars).head? = some '/' from rfl] at hc
    injection hc with h2
    rw [← h2]
    decide
  have hparse2 : urlparse (sch ++ ':' :: '/' :: '/' :: (n ++ (("/Product/").data))) =
      ⟨sch, n, (("/Product/").data), [], []⟩ := by
    rw [urlparse_built sch n _ hsch hnall hrhead2]
    rw [splitPQF_no_qf (("/Product/").data)
      (fun a ha => ⟨all_ne_of_decide _ '#' (by decide) a ha,
        all_ne_of_decide _ '?' (by decide) a ha⟩)]
  have hnh2 : normalize_home (sch ++ ':' :: '/' :: '/' :: (n ++ (("/Product/").data))) =
      sch ++ ':' :: '/' :: '/' :: n := by
    unfold normalize_home
    rw [hens2, hparse2]
    exact urlunparse3_base sch n hschne hn.1
  have hb4 := hasParamNum_idx_built (natRepr id) hall hne
  simp only [detect_platform_from_product_url, hens, hsq, hparse, hparse2, hnh2]
  rw [if_neg (show ¬(containsSub (("/Product/").data) (("/surl/p/").data) = true ∧
      hasSurlPNum (("/Product/").data) = true) from fun h => absurd h.1 (by decide))]
  rw [if_neg (show ¬((("/product/").data).isPrefixOf (("/Product/").data) = true ∧
      hasProductCategoryNum (("/Product/").data) = true) from
    fun h => absurd h.1 (by decide))]
  rw [if_neg (show ¬(endsWith (lowerAll (rstripSlash (("/Product/").data)))
        (("/product/detail.html").data) = true ∧
      hasParamNum (("product_no").data) ((("idx=").data) ++ natRepr id) = true) from
    fun h => absurd h.1 (by decide))]
  rw [if_pos (show endsWith (lowerAll (rstripSlash (("/Product/").data)))
        (("/product").data) = true ∧
      hasParamNum (("idx").data) ((("idx=").data) ++ natRepr id) = true from
    ⟨by decide, hb4⟩)]


theorem base_no_brace (sch n : Chars)
    (hsch : sch = ("http").data ∨ sch = ("https").data) (hn : hostOk n) :
    ∀ a ∈ sch ++ ':' :: '/' :: '/' :: n, a ≠ '\x7b' := by
  intro a ha
  rw [List.mem_append] at ha
  rcases ha with ha | ha
  · rcases hsch with h | h <;> subst h <;>
      exact all_ne_of_decide _ _ (by decide) a ha
  · rw [List.mem_cons] at ha
    rcases ha with ha | ha
    · subst ha; decide
    rw [List.mem_cons] at ha
    rcases ha with ha | ha
    · subst ha; decide
    rw [List.mem_cons] at ha
    rcases ha with ha | ha
    · subst ha; decide
    · exact hostOk_no_brace n hn a ha

/-- Claim C8: the template resolver is idempotent. Whenever a product URL
resolves to a `(platform, template)` pair and its resolved base is
`scheme://host` for a nonempty host of ordinary characters, substituting any
concrete positive id into the template and resolving the resulting URL again
yields the same `(platform, template)` pair. -/
theorem template_resolver_idempotent
    (u pf t sch n : Chars) (id : Nat) (hid : 0 < id)
    (hdet : detect_platform_from_product_url u = some (pf, t))
    (hsch : sch = ("http").data ∨ sch = ("https").data)
    (hn : hostOk n)
    (hbase : normalize_home (strip_query_fragment (ensure_scheme u)) =
        sch ++ ':' :: '/' :: '/' :: n) :
    detect_platform_from_product_url (format_id t id) = some (pf, t) := by
  have hbne := base_no_brace sch n hsch hn
  simp only [detect_platform_from_product_url] at hdet
  rw [hbase] at hdet
  split_ifs at hdet with h1 h2 h3 h4
  · rw [Option.some.injEq, Prod.mk.injEq] at hdet
    obtain ⟨hpf, ht⟩ := hdet
    subst hpf
    subst ht
    rw [format_id_append _ _ id hbne, format_id_cafe24_tail]
    rw [show (sch ++ ':' :: '/' :: '/' :: n) ++ ((("/surl/p/").data) ++ natRepr id) =
        sch ++ ':' :: '/' :: '/' :: (n ++ ((("/surl/p/").data) ++ natRepr id)) by simp]
    exact detect_built_cafe24 sch n id hsch hn
  · rw [Option.some.injEq, Prod.mk.injEq] at hdet
    obtain ⟨hpf, ht⟩ := hdet
    subst hpf
    subst ht
    rw [format_id_append _ _ id hbne, format_id_cafe24_tail]
    rw [show (sch ++ ':' :: '/' :: '/' :: n) ++ ((("/surl/p/").data) ++ natRepr id) =
        sch ++ ':' :: '/' :: '/' :: (n ++ ((("/surl/p/").data) ++ natRepr id)) by simp]
    exact detect_built_cafe24 sch n id hsch hn
  · rw [Option.some.injEq, Prod.mk.injEq] at hdet
    obtain ⟨hpf, ht⟩ := hdet
    subst hpf
    subst ht
    rw [format_id_append _ _ id hbne, format_id_cafe24_tail]
    rw [show (sch ++ ':' :: '/' :: '/' :: n) ++ ((("/surl/p/").data) ++ natRepr id) =
        sch ++ ':' :: '/' :: '/' :: (n ++ ((("/surl/p/").data) ++ natRepr id)) by simp]
    exact detect_built_cafe24 sch n id hsch hn
  · rw [Option.some.injEq, Prod.mk.injEq] at hdet
    obtain ⟨hpf, ht⟩ := hdet
    subst hpf
    subst ht
    rw [format_id_append _ _ id hbne, format_id_imweb_tail]
    rw [show (sch ++ ':' :: '/' :: '/' :: n) ++ ((("/Product/?idx=").data) ++ natRepr id) =
        sch ++ ':' :: '/' :: '/' :: (n ++ ((("/Product/?idx=").data) ++ natRepr id)) by simp]
    exact detect_built_imweb sch n id hsch hn

/-- Witness for C8: an Imweb shop URL resolving to the pair
`(imweb, https://shop.example/Product/?idx=` followed by the id placeholder
and closing brace; substituting id 5 and resolving again returns the same
pair. -/
theorem template_resolver_idempotent_witness :
    0 < 5 ∧
      detect_platform_from_product_url
          (("https://shop.example/Product/?idx=72").data) =
        some ((("imweb").data),
          (("https://shop.example/Product/?idx=\x7bid\x7d").data)) ∧
      hostOk (("shop.example").data) ∧
      normalize_home (strip_query_fragment (ensure_scheme
          (("https://shop.example/Product/?idx=72").data))) =
        ("https").data ++ ':' :: '/' :: '/' :: ("shop.example").data ∧
      detect_platform_from_product_url
          (format_id (("https://shop.example/Product/?idx=\x7bid\x7d").data) 5) =
        some ((("imweb").data),
          (("https://shop.example/Product/?idx=\x7bid\x7d").data)) :=
  ⟨by decide, by decide, ⟨by decide, by decide⟩, by decide,
   template_resolver_idempotent
     (("https://shop.example/Product/?idx=72").data)
     (("imweb").data)
     (("https://shop.example/Product/?idx=\x7bid\x7d").data)
     (("https").data) (("shop.example").data) 5 (by decide) (by decide)
     (Or.inr rfl) ⟨by decide, by decide⟩ (by decide)⟩

end FindPage
